import Mathlib

set_option linter.dupNamespace false

/-!
Event ingestion conversion stage.

A shallow embedding of `internal/eventapi/ingestion/conversions.go`:
`MessageRowConverter.ConvertBatch` turns one batch of pulsar messages into a
`model.BatchUpdate` (one ack handle per message, zero or more storage rows) and
`Convert` is the channel stage that applies it to every batch it receives.

Go values that can be `nil` (the `*ConsumerMessage` pointers of a batch, the
`pulsar.Message` interface value inside one, the `*ConsumerMessageId` slots of
the freshly made slice, `*uint64`, `*time.Time`) are `Option`s; a Go run-time
panic (nil dereference, index out of range) is the result `none`.
Logging has no effect on the returned value and is left out.
-/

/-- Byte slices (`[]byte`). -/
abbrev Bytes := List Nat

/-- Go `error` values; `none` in an `Option GoError` is the `nil` error. -/
abbrev GoError := String

namespace time

/-- A `time.Location`, identified by its name. -/
structure Location where
  name : String
deriving DecidableEq, Repr

/-- The location `time.UTC`. -/
def UTC : Location := ⟨"UTC"⟩

/-- A `time.Time`: an instant (nanoseconds since the epoch) shown in a location. -/
structure Time where
  unixNano : Int
  loc : Location
deriving DecidableEq, Repr

/-- The method `Time.In`: the same instant, with the location set to `loc`. -/
def Time.In (t : Time) (loc : Location) : Time := { t with loc := loc }

end time

namespace pulsar

/-- A `pulsar.MessageID` (an opaque, log-assigned identifier). -/
abbrev MessageID := Nat

/-- A `pulsar.Message`, seen through the methods the converter calls
(`ID`, `Payload`, `PublishTime`, `Index`) and the properties map that the
message category is read from. -/
structure Message where
  ID : MessageID
  Payload : Bytes
  PublishTime : time.Time
  Index : Option Nat
  Properties : List (String × String)
deriving DecidableEq, Repr

end pulsar

namespace pulsarutils

/-- The struct `pulsarutils.ConsumerMessage`; `Message` is an interface value and
may be `nil`. -/
structure ConsumerMessage where
  Message : Option pulsar.Message
  ConsumerId : Int
deriving DecidableEq, Repr

/-- The struct `pulsarutils.ConsumerMessageId`: the handle used to ack a message. -/
structure ConsumerMessageId where
  MessageId : pulsar.MessageID
  ConsumerId : Int
deriving DecidableEq, Repr

end pulsarutils

namespace armadaevents

/-- One event of a sequence: the optional `Created` time (a `*time.Time`) and the
event body (the `oneof` payload, which the converter never inspects). -/
structure EventSequence_Event where
  Created : Option time.Time
  Event : Nat
deriving DecidableEq, Repr

/-- Modelled from the spec: the declaration of `armadaevents.EventSequence` is not
among the sources; the spec gives it as `{queue, jobSet, events}`, and the
converter reads and writes exactly these three fields. -/
structure EventSequence where
  Queue : String
  JobSetName : String
  Events : List EventSequence_Event
deriving DecidableEq, Repr

/-- The wrapper `armadaevents.DatabaseSequence` that is serialized for storage. -/
structure DatabaseSequence where
  EventSequence : EventSequence
deriving DecidableEq, Repr

end armadaevents

namespace model

/-- The storage row `model.Event`. -/
structure Event where
  Queue : String
  Jobset : String
  Event : Bytes
deriving DecidableEq, Repr

/-- The struct `model.BatchUpdate`; `MessageIds` is a slice of pointers. -/
structure BatchUpdate where
  MessageIds : List (Option pulsarutils.ConsumerMessageId)
  Events : List Event
deriving DecidableEq, Repr

end model

namespace context

/-- A `context.Context`, reduced to whether it has been cancelled. -/
structure Context where
  cancelled : Bool
deriving DecidableEq, Repr

end context

namespace compress

/-- The interface `compress.Compressor`: `Compress` returns a byte slice and an
error, as in Go both are returned on every call. -/
structure Compressor where
  Compress : Bytes → Bytes × Option GoError

end compress

namespace ingestion

/-- The functions `ConvertBatch` calls whose bodies live outside this file, taken as
functions that meet their contracts: `armadaevents.IsControlMessage`,
`eventutil.UnmarshalEventSequence` (either an error, or a non-nil sequence of non-nil
events) and `proto.Marshal` (bytes and an error, both returned on every call). What
their Go types allow beyond that is in `raw.Externals`. -/
structure Externals where
  IsControlMessage : pulsar.Message → Bool
  UnmarshalEventSequence : context.Context → Bytes → Except GoError armadaevents.EventSequence
  Marshal : armadaevents.DatabaseSequence → Bytes × Option GoError

/-- The struct `MessageRowConverter`. -/
structure MessageRowConverter where
  compressor : compress.Compressor

/-- An indexed store `s[i] = v` on a slice: a panic when `i` is out of range. -/
def sliceSet {α : Type} (s : List α) (i : Nat) (v : α) : Option (List α) :=
  if i < s.length then some (s.set i v) else none

/-- The loop `for _, event := range es.Events` of `ConvertBatch`: an event whose
`Created` is nil gets the message's publish time, in UTC. -/
def fillCreated (publishTime : time.Time) (events : List armadaevents.EventSequence_Event) :
    List armadaevents.EventSequence_Event :=
  events.map fun event =>
    match event.Created with
    | none => { event with Created := some (publishTime.In time.UTC) }
    | some _ => event

/-- The two local slices of `ConvertBatch`. -/
structure LoopState where
  messageIds : List (Option pulsarutils.ConsumerMessageId)
  events : List model.Event
deriving DecidableEq, Repr

/-- One iteration of the loop `for i, msg := range batch` of `ConvertBatch`. -/
def loopBody (rc : MessageRowConverter) (ext : Externals) (ctx : context.Context)
    (i : Nat) (msg : Option pulsarutils.ConsumerMessage) (st : LoopState) : Option LoopState := do
  let msg ← msg
  let pulsarMsg ← msg.Message
  let messageIds ← sliceSet st.messageIds i
    (some { MessageId := pulsarMsg.ID, ConsumerId := msg.ConsumerId })
  let st := { st with messageIds := messageIds }
  if !ext.IsControlMessage pulsarMsg then
    pure st
  else if pulsarMsg.Index.isNone then
    pure st
  else
    match ext.UnmarshalEventSequence ctx pulsarMsg.Payload with
    | .error _ => pure st
    | .ok es =>
      let es := { es with Events := fillCreated pulsarMsg.PublishTime es.Events }
      let queue := es.Queue
      let jobset := es.JobSetName
      let es := { es with JobSetName := "" }
      let es := { es with Queue := "" }
      let (bytes, _) := ext.Marshal { EventSequence := es }
      let (compressedBytes, _) := rc.compressor.Compress bytes
      pure { st with
        events := st.events ++ [{ Queue := queue, Jobset := jobset, Event := compressedBytes }] }

/-- The loop `for i, msg := range batch`, from index `i` over the rest of the batch. -/
def loopFrom (rc : MessageRowConverter) (ext : Externals) (ctx : context.Context) :
    Nat → List (Option pulsarutils.ConsumerMessage) → LoopState → Option LoopState
  | _, [], st => some st
  | i, msg :: rest, st =>
    match loopBody rc ext ctx i msg st with
    | none => none
    | some st => loopFrom rc ext ctx (i + 1) rest st

/-- The method `MessageRowConverter.ConvertBatch`; `none` is a panic. -/
def ConvertBatch (rc : MessageRowConverter) (ext : Externals) (ctx : context.Context)
    (batch : List (Option pulsarutils.ConsumerMessage)) : Option model.BatchUpdate :=
  let messageIds : List (Option pulsarutils.ConsumerMessageId) := List.replicate batch.length none
  let events : List model.Event := []
  match loopFrom rc ext ctx 0 batch { messageIds := messageIds, events := events } with
  | none => none
  | some st => some { MessageIds := st.messageIds, Events := st.events }

/-! ### The stage `Convert`

`Convert` makes the channel `out` with capacity `bufferSize` and starts one goroutine
that receives the batches of `msgs` in order, sends `ConvertBatch` of each on `out`,
and closes `out` once `msgs` is closed and drained. The state below records the
goroutine, the channel `out` and what the reader of `out` has received; the input
channel is the list of batches delivered on it before it was closed. -/

/-- Where the goroutine of `Convert` stands. -/
inductive Worker where
  /-- At `for pulsarBatch := range msgs`, about to receive. -/
  | receiving
  /-- At `out <- u`, holding the converted batch `u`. -/
  | sending (u : model.BatchUpdate)
  /-- After `close(out)`. -/
  | finished
  /-- After a panic of `ConvertBatch`. -/
  | panicked
deriving DecidableEq, Repr

/-- The state of a running stage. -/
structure Stage where
  /-- The context the goroutine captured. -/
  ctx : context.Context
  /-- The converter the goroutine captured. -/
  converter : MessageRowConverter
  /-- Batches delivered on `msgs` and not yet received by the goroutine. -/
  msgs : List (List (Option pulsarutils.ConsumerMessage))
  /-- The goroutine. -/
  worker : Worker
  /-- The capacity of `out`. -/
  capacity : Nat
  /-- The buffer of `out`, oldest first. -/
  out : List model.BatchUpdate
  /-- Whether `out` has been closed. -/
  outClosed : Bool
  /-- The updates the reader of `out` has received, in order. -/
  emitted : List model.BatchUpdate
  /-- Whether the reader has seen `out` closed. -/
  sawClose : Bool

/-- The limits that `runtime.makechan` checks when `make(chan T, size)` runs: the size
in bytes of one channel element, the largest allocation `maxAlloc`, and the size
`hchanSize` of the channel header. -/
structure Runtime where
  elemSize : Nat
  maxAlloc : Nat
  hchanSize : Nat
deriving DecidableEq, Repr

/-- The check of `runtime.makechan`: `make` panics with `makechan: size out of range`
when `size` is negative or a buffer of `size` elements takes more than
`maxAlloc - hchanSize` bytes (which also covers the overflow of the multiplication). -/
def Runtime.chanSizeOk (rt : Runtime) (size : Int) : Bool :=
  decide (0 ≤ size ∧ rt.elemSize * size.toNat ≤ rt.maxAlloc - rt.hchanSize)

/-- The limits on linux/amd64 for a channel of pointers: 8-byte elements,
`maxAlloc = 1 << 48`, a 96-byte header. -/
def linuxAmd64 : Runtime := { elemSize := 8, maxAlloc := 2 ^ 48, hchanSize := 96 }

/-- The function `Convert`: the state right after it returns, with the goroutine
started; `none` when `make(chan *model.BatchUpdate, bufferSize)` panics, which it does
on a negative buffer size and on one that is out of range for the runtime `rt`. -/
def Convert (rt : Runtime) (ctx : context.Context)
    (msgs : List (List (Option pulsarutils.ConsumerMessage)))
    (bufferSize : Int) (converter : MessageRowConverter) : Option Stage :=
  if rt.chanSizeOk bufferSize = true then
    some { ctx := ctx, converter := converter, msgs := msgs, worker := .receiving,
           capacity := bufferSize.toNat, out := [], outClosed := false, emitted := [],
           sawClose := false }
  else none

/-- The moves of the goroutine and of the reader of `out`. -/
inductive Action where
  /-- The goroutine receives the next batch and converts it. -/
  | receive
  /-- The goroutine's send completes into the buffer of `out`. -/
  | sendBuffered
  /-- The goroutine's send completes by handing the value to the waiting reader. -/
  | sendDirect
  /-- The reader receives the oldest buffered value. -/
  | read
  /-- The goroutine finds `msgs` closed and drained, and closes `out`. -/
  | close
  /-- The reader finds `out` closed and drained. -/
  | readClosed
deriving DecidableEq, Repr

/-- One move of the stage; `none` when the move is not enabled. A panic of the
goroutine ends the program, after which nothing moves. -/
def step (ext : Externals) (s : Stage) : Action → Option Stage
  | .receive =>
    match s.worker, s.msgs with
    | .receiving, pulsarBatch :: rest =>
      match ConvertBatch s.converter ext s.ctx pulsarBatch with
      | some u => some { s with msgs := rest, worker := .sending u }
      | none => some { s with msgs := rest, worker := .panicked }
    | _, _ => none
  | .sendBuffered =>
    match s.worker with
    | .sending u =>
      if s.out.length < s.capacity then some { s with out := s.out ++ [u], worker := .receiving }
      else none
    | _ => none
  | .sendDirect =>
    match s.worker with
    | .sending u =>
      if s.out = [] then some { s with emitted := s.emitted ++ [u], worker := .receiving }
      else none
    | _ => none
  | .read =>
    match s.worker, s.out with
    | .panicked, _ => none
    | _, u :: rest => some { s with out := rest, emitted := s.emitted ++ [u] }
    | _, [] => none
  | .close =>
    match s.worker, s.msgs with
    | .receiving, [] => some { s with worker := .finished, outClosed := true }
    | _, _ => none
  | .readClosed =>
    if s.outClosed = true ∧ s.out = [] ∧ s.sawClose = false then some { s with sawClose := true }
    else none

/-- A run of the stage under a schedule of moves. -/
def run (ext : Externals) : Stage → List Action → Option Stage
  | s, [] => some s
  | s, a :: rest =>
    match step ext s a with
    | none => none
    | some t => run ext t rest

/-- A bound on the number of moves a stage can still make. -/
def Stage.budget (s : Stage) : Nat :=
  3 * s.msgs.length +
    (match s.worker with
     | .receiving => 1
     | .sending _ => 3
     | .finished => 0
     | .panicked => 0) +
    s.out.length + (if s.sawClose then 0 else 1)

/-- The invariant of a stage started on `batches` with context `ctx` and converter
`rc`: what has been emitted, is buffered, is held by the goroutine and is still to be
received makes up the conversions of `batches`, in order. -/
def StageInv (rc : MessageRowConverter) (ext : Externals) (ctx : context.Context)
    (batches : List (List (Option pulsarutils.ConsumerMessage))) (s : Stage) : Prop :=
  s.ctx = ctx ∧ s.converter = rc ∧
  match s.worker with
  | .receiving =>
    batches.map (ConvertBatch rc ext ctx) =
      s.emitted.map some ++ s.out.map some ++ s.msgs.map (ConvertBatch rc ext ctx) ∧
      s.outClosed = false ∧ s.sawClose = false
  | .sending u =>
    batches.map (ConvertBatch rc ext ctx) =
      s.emitted.map some ++ s.out.map some ++ some u :: s.msgs.map (ConvertBatch rc ext ctx) ∧
      s.outClosed = false ∧ s.sawClose = false
  | .finished =>
    batches.map (ConvertBatch rc ext ctx) = s.emitted.map some ++ s.out.map some ∧
      s.msgs = [] ∧ s.outClosed = true ∧ (s.sawClose = true → s.out = [])
  | .panicked =>
    s.emitted.map some ++ s.out.map some <+: batches.map (ConvertBatch rc ext ctx) ∧
      s.outClosed = false ∧ s.sawClose = false

/-! ### What one message contributes -/

/-- The ack handle `ConvertBatch` stores for a batch entry; `none` when the entry
or the message inside it is nil. -/
def ackHandle (msg : Option pulsarutils.ConsumerMessage) : Option pulsarutils.ConsumerMessageId :=
  match msg with
  | none => none
  | some m =>
    match m.Message with
    | none => none
    | some p => some { MessageId := p.ID, ConsumerId := m.ConsumerId }

/-- The event sequence decoded from a message that passes the three checks of the
loop: it is a control message, it has an index, and its payload unmarshals. -/
def decodedSequence (ext : Externals) (ctx : context.Context) (p : pulsar.Message) :
    Option armadaevents.EventSequence :=
  if ext.IsControlMessage p = true ∧ p.Index.isSome = true then
    match ext.UnmarshalEventSequence ctx p.Payload with
    | .error _ => none
    | .ok es => some es
  else none

/-- The sequence handed to `proto.Marshal` for a decoded sequence `es` of message `p`. -/
def normalizedSequence (p : pulsar.Message) (es : armadaevents.EventSequence) :
    armadaevents.EventSequence :=
  { Queue := "", JobSetName := "", Events := fillCreated p.PublishTime es.Events }

/-- The storage row built from a decoded sequence `es` of message `p`. -/
def rowFor (rc : MessageRowConverter) (ext : Externals) (p : pulsar.Message)
    (es : armadaevents.EventSequence) : model.Event :=
  { Queue := es.Queue, Jobset := es.JobSetName,
    Event := (rc.compressor.Compress (ext.Marshal { EventSequence := normalizedSequence p es }).1).1 }

/-- The storage row a batch entry contributes, if any. -/
def rowOf (rc : MessageRowConverter) (ext : Externals) (ctx : context.Context)
    (msg : Option pulsarutils.ConsumerMessage) : Option model.Event :=
  match msg with
  | none => none
  | some m =>
    match m.Message with
    | none => none
    | some p => (decodedSequence ext ctx p).map (rowFor rc ext p)

/-- A batch without nil entries and nil messages. -/
def nonNilBatch (batch : List (Option pulsarutils.ConsumerMessage)) : Prop :=
  ∀ msg ∈ batch, (ackHandle msg).isSome = true

instance (batch : List (Option pulsarutils.ConsumerMessage)) : Decidable (nonNilBatch batch) := by
  unfold nonNilBatch; infer_instance

/-- A stage whose goroutine has not panicked and will not: no nil entry is left to
be received. -/
def NoPanic (s : Stage) : Prop :=
  s.worker ≠ .panicked ∧ ∀ b ∈ s.msgs, nonNilBatch b

/-- The event sequence of a batch entry that is a control message, has an index and
decodes successfully; `none` for every other entry. -/
def usableSequence (ext : Externals) (ctx : context.Context)
    (msg : Option pulsarutils.ConsumerMessage) : Option armadaevents.EventSequence :=
  match msg with
  | none => none
  | some m =>
    match m.Message with
    | none => none
    | some p => decodedSequence ext ctx p

/-! ### `ConvertBatch` with its collaborators as Go types them

The definitions above take the decoder, the serializer and the compressor as
functions that meet their contracts. Below they are what their Go types allow: calls
that read and change a state of the world `σ` (the wall clock, the buffers of a
compressor), a decoder that can return a nil sequence with a nil error or a sequence
holding nil events, and a converter and a compressor that can be nil. -/

namespace raw

/-- A non-nil `*armadaevents.EventSequence` as the decoder returns it: `Events` is a
slice of pointers, each of which may be nil. -/
structure EventSequence where
  Queue : String
  JobSetName : String
  Events : List (Option armadaevents.EventSequence_Event)
deriving DecidableEq, Repr

/-- The functions `ConvertBatch` calls, each call made in a state of the world and
leaving one; `UnmarshalEventSequence` returns a pointer and an error. -/
structure Externals (σ : Type) where
  IsControlMessage : pulsar.Message → Bool
  UnmarshalEventSequence :
    context.Context → Bytes → σ → (Option EventSequence × Option GoError) × σ
  Marshal : armadaevents.DatabaseSequence → σ → (Bytes × Option GoError) × σ

/-- A non-nil value of the interface `compress.Compressor`. -/
structure Compressor (σ : Type) where
  Compress : Bytes → σ → (Bytes × Option GoError) × σ

/-- The struct `MessageRowConverter`; the field `compressor` is an interface value and
may be nil. -/
structure MessageRowConverter (σ : Type) where
  compressor : Option (Compressor σ)

/-- The loop `for _, event := range es.Events`: a panic on a nil event, otherwise an
event whose `Created` is nil gets the message's publish time, in UTC. -/
def fillCreated (publishTime : time.Time) :
    List (Option armadaevents.EventSequence_Event) →
      Option (List armadaevents.EventSequence_Event)
  | [] => some []
  | none :: _ => none
  | some event :: rest =>
    match fillCreated publishTime rest with
    | none => none
    | some filled =>
      some ((match event.Created with
             | none => { event with Created := some (publishTime.In time.UTC) }
             | some _ => event) :: filled)

/-- One iteration of the loop `for i, msg := range batch` in the world `w`; the
receiver `rc` is a pointer and may be nil. -/
def loopBody {σ : Type} (rc : Option (MessageRowConverter σ)) (ext : Externals σ)
    (ctx : context.Context) (i : Nat) (msg : Option pulsarutils.ConsumerMessage)
    (st : LoopState) (w : σ) : Option (LoopState × σ) :=
  match msg with
  | none => none
  | some msg =>
    match msg.Message with
    | none => none
    | some pulsarMsg =>
      match sliceSet st.messageIds i
          (some { MessageId := pulsarMsg.ID, ConsumerId := msg.ConsumerId }) with
      | none => none
      | some messageIds =>
        let st := { st with messageIds := messageIds }
        if !ext.IsControlMessage pulsarMsg then some (st, w)
        else if pulsarMsg.Index.isNone then some (st, w)
        else
          let decoded := ext.UnmarshalEventSequence ctx pulsarMsg.Payload w
          match decoded.1.2 with
          | some _ => some (st, decoded.2)
          | none =>
            match decoded.1.1 with
            | none => none
            | some es =>
              match fillCreated pulsarMsg.PublishTime es.Events with
              | none => none
              | some events =>
                let queue := es.Queue
                let jobset := es.JobSetName
                let marshalled := ext.Marshal
                  { EventSequence := { Queue := "", JobSetName := "", Events := events } }
                  decoded.2
                match rc with
                | none => none
                | some rc =>
                  match rc.compressor with
                  | none => none
                  | some compressor =>
                    let compressed := compressor.Compress marshalled.1.1 marshalled.2
                    some ({ st with
                            events := st.events ++
                              [{ Queue := queue, Jobset := jobset, Event := compressed.1.1 }] },
                          compressed.2)

/-- The loop `for i, msg := range batch`, from index `i` over the rest of the batch. -/
def loopFrom {σ : Type} (rc : Option (MessageRowConverter σ)) (ext : Externals σ)
    (ctx : context.Context) :
    Nat → List (Option pulsarutils.ConsumerMessage) → LoopState → σ → Option (LoopState × σ)
  | _, [], st, w => some (st, w)
  | i, msg :: rest, st, w =>
    match loopBody rc ext ctx i msg st w with
    | none => none
    | some (st, w) => loopFrom rc ext ctx (i + 1) rest st w

/-- The method `MessageRowConverter.ConvertBatch` run in the world `w`: the update it
returns and the world it leaves; `none` is a panic. -/
def ConvertBatch {σ : Type} (rc : Option (MessageRowConverter σ)) (ext : Externals σ)
    (ctx : context.Context) (batch : List (Option pulsarutils.ConsumerMessage)) (w : σ) :
    Option (model.BatchUpdate × σ) :=
  let messageIds : List (Option pulsarutils.ConsumerMessageId) := List.replicate batch.length none
  let events : List model.Event := []
  match loopFrom rc ext ctx 0 batch { messageIds := messageIds, events := events } w with
  | none => none
  | some (st, w) => some ({ MessageIds := st.messageIds, Events := st.events }, w)

/-- A decoded sequence of the contract-level model as the pointer the decoder
returns. -/
def ofSequence (es : armadaevents.EventSequence) : EventSequence :=
  { Queue := es.Queue, JobSetName := es.JobSetName, Events := es.Events.map some }

end raw

/-! ### Sample data -/

/-- A sample decoder: the first byte must be `1`; the rest are the bodies of events
without a `Created` time, except that body `7` carries one. -/
def sampleUnmarshal (_ctx : context.Context) (payload : Bytes) :
    Except GoError armadaevents.EventSequence :=
  match payload with
  | 1 :: bodies =>
    .ok { Queue := "queue-a", JobSetName := "jobset-1",
          Events := bodies.map fun b =>
            { Created := if b = 7 then some { unixNano := 5, loc := ⟨"Local"⟩ } else none,
              Event := b } }
  | _ => .error "proto: cannot parse"

/-- A sample serializer: the queue and job-set lengths, then per event its body and
its `Created` instant (or `0`). -/
def sampleMarshal (d : armadaevents.DatabaseSequence) : Bytes × Option GoError :=
  (d.EventSequence.Queue.length :: d.EventSequence.JobSetName.length ::
    d.EventSequence.Events.flatMap fun e =>
      [e.Event, match e.Created with
                | some t => t.unixNano.toNat
                | none => 0], none)

/-- Sample externals: a control message has the property `type = control`. -/
def sampleExt : Externals :=
  { IsControlMessage := fun p => p.Properties.lookup "type" == some "control",
    UnmarshalEventSequence := sampleUnmarshal,
    Marshal := sampleMarshal }

/-- A sample converter whose compressor prepends the length. -/
def sampleRc : MessageRowConverter :=
  { compressor := { Compress := fun b => (b.length :: b, none) } }

/-- A sample converter whose compressor fails on every call. -/
def failingRc : MessageRowConverter :=
  { compressor := { Compress := fun _ => ([], some "compress: failed") } }

/-- A sample context. -/
def sampleCtx : context.Context := { cancelled := false }

/-- A valid control message. -/
def validMsg : pulsarutils.ConsumerMessage :=
  { Message := some { ID := 11, Payload := [1, 7, 9],
                      PublishTime := { unixNano := 1000, loc := ⟨"Local"⟩ },
                      Index := some 0, Properties := [("type", "control")] },
    ConsumerId := 3 }

/-- A message that is not a control message. -/
def nonControlMsg : pulsarutils.ConsumerMessage :=
  { Message := some { ID := 12, Payload := [1, 4],
                      PublishTime := { unixNano := 2000, loc := ⟨"Local"⟩ },
                      Index := some 1, Properties := [] },
    ConsumerId := 3 }

/-- A control message whose payload does not decode. -/
def undecodableMsg : pulsarutils.ConsumerMessage :=
  { Message := some { ID := 13, Payload := [0, 4],
                      PublishTime := { unixNano := 3000, loc := ⟨"Local"⟩ },
                      Index := some 2, Properties := [("type", "control")] },
    ConsumerId := 4 }

/-- A control message without an index. -/
def noIndexMsg : pulsarutils.ConsumerMessage :=
  { Message := some { ID := 14, Payload := [1, 4],
                      PublishTime := { unixNano := 4000, loc := ⟨"Local"⟩ },
                      Index := none, Properties := [("type", "control")] },
    ConsumerId := 4 }

/-- A second valid control message, with another payload and publish time. -/
def secondValidMsg : pulsarutils.ConsumerMessage :=
  { Message := some { ID := 15, Payload := [1, 4],
                      PublishTime := { unixNano := 5000, loc := ⟨"Local"⟩ },
                      Index := some 3, Properties := [("type", "control")] },
    ConsumerId := 5 }

/-- A sample batch: valid, non-control, undecodable. -/
def sampleBatch : List (Option pulsarutils.ConsumerMessage) :=
  [some validMsg, some nonControlMsg, some undecodableMsg]

/-- Sample externals whose serializer fails on every call. -/
def failingMarshalExt : Externals :=
  { sampleExt with Marshal := fun _ => ([], some "proto: marshal failed") }

/-- A cancelled context. -/
def cancelledCtx : context.Context := { cancelled := true }

/-- Sample externals whose decoder gives up once the context is cancelled. -/
def cancelAwareExt : Externals :=
  { sampleExt with
    UnmarshalEventSequence := fun ctx payload =>
      if ctx.cancelled then .error "context canceled" else sampleUnmarshal ctx payload }

/-! #### Sample collaborators in a world that is a wall clock -/

namespace raw

/-- The sample externals, each call taking one tick of the clock. -/
def tickingExt : Externals Nat :=
  { IsControlMessage := sampleExt.IsControlMessage,
    UnmarshalEventSequence := fun ctx payload now =>
      (match sampleUnmarshal ctx payload with
       | .ok es => (some (ofSequence es), none)
       | .error e => (none, some e), now + 1),
    Marshal := fun d now => (sampleMarshal d, now + 1) }

/-- The sample compressor, each call taking one tick of the clock. -/
def tickingCompressor : Compressor Nat :=
  { Compress := fun b now => ((b.length :: b, none), now + 1) }

/-- A compressor that stamps its output with the time of the call. -/
def stampingCompressor : Compressor Nat :=
  { Compress := fun b now => ((now :: b, none), now + 1) }

/-- Externals whose decoder returns a nil sequence and a nil error. -/
def nilSequenceExt : Externals Nat :=
  { tickingExt with UnmarshalEventSequence := fun _ _ now => ((none, none), now + 1) }

/-- Externals whose decoder returns a sequence holding a nil event. -/
def nilEventExt : Externals Nat :=
  { tickingExt with
    UnmarshalEventSequence := fun _ _ now =>
      ((some { Queue := "queue-a", JobSetName := "jobset-1",
               Events := [some { Created := none, Event := 7 }, none] }, none), now + 1) }

/-- Externals whose decoder and serializer fail on every call. -/
def allFailingExt : Externals Nat :=
  { tickingExt with
    UnmarshalEventSequence := fun _ payload now =>
      if payload.length < 3 then ((none, some "proto: cannot parse"), now + 1)
      else ((some { Queue := "queue-a", JobSetName := "jobset-1", Events := [] }, none), now + 1),
    Marshal := fun _ now => (([], some "proto: marshal failed"), now + 1) }

/-- A compressor that fails on every call. -/
def failingCompressor : Compressor Nat :=
  { Compress := fun _ now => (([], some "compress: failed"), now + 1) }

end raw

end ingestion

/-! ### The client connection (`pkg/client/connection.go`) -/

namespace strings

/-- The function `strings.Contains`: `substr` occurs somewhere inside `s`. -/
def Contains (s substr : String) : Bool := decide (substr.data <:+: s.data)

/-- The function `strings.HasPrefix`: `s` begins with `pre`. -/
def HasPrefix (s pre : String) : Bool := decide (pre.data <+: s.data)

end strings

namespace common

/-- The struct `common.LoginCredentials`; its declaration is outside these sources,
`Username` is the field read here and `rest` stands for the others. -/
structure LoginCredentials where
  Username : String
  rest : List String
deriving DecidableEq, Repr

end common

namespace oidc

/-- The struct `oidc.PKCEDetails` (`ProviderUrl` is the field read here). -/
structure PKCEDetails where
  ProviderUrl : String
  rest : List String
deriving DecidableEq, Repr

/-- The struct `oidc.DeviceDetails` (`ProviderUrl` is the field read here). -/
structure DeviceDetails where
  ProviderUrl : String
  rest : List String
deriving DecidableEq, Repr

/-- The struct `oidc.ClientPasswordDetails` (`ProviderUrl` is the field read here). -/
structure ClientPasswordDetails where
  ProviderUrl : String
  rest : List String
deriving DecidableEq, Repr

/-- The struct `oidc.ClientCredentialsDetails` (`ProviderUrl` is the field read here). -/
structure ClientCredentialsDetails where
  ProviderUrl : String
  rest : List String
deriving DecidableEq, Repr

/-- The struct `oidc.KubernetesDetails` (`ProviderUrl` is the field read here). -/
structure KubernetesDetails where
  ProviderUrl : String
  rest : List String
deriving DecidableEq, Repr

end oidc

namespace kerberos

/-- The struct `kerberos.ClientConfig` (`Enabled` is the field read here). -/
structure ClientConfig where
  Enabled : Bool
deriving DecidableEq, Repr

end kerberos

namespace exec

/-- The struct `exec.CommandDetails` (`Cmd` is the field read here). -/
structure CommandDetails where
  Cmd : String
  rest : List String
deriving DecidableEq, Repr

end exec

namespace http

/-- An `http.Response`, reduced to its status code. -/
structure Response where
  StatusCode : Int
deriving DecidableEq, Repr

end http

namespace client

/-- The struct `ApiConnectionDetails`; durations are in nanoseconds. -/
structure ApiConnectionDetails where
  ArmadaUrl : String
  ArmadaRestUrl : String
  GrpcKeepAliveTime : Int
  GrpcKeepAliveTimeout : Int
  BasicAuth : common.LoginCredentials
  OpenIdAuth : oidc.PKCEDetails
  OpenIdDeviceAuth : oidc.DeviceDetails
  OpenIdPasswordAuth : oidc.ClientPasswordDetails
  OpenIdClientCredentialsAuth : oidc.ClientCredentialsDetails
  OpenIdKubernetesAuth : oidc.KubernetesDetails
  KerberosAuth : kerberos.ClientConfig
  ForceNoTls : Bool
  ExecAuth : exec.CommandDetails
deriving DecidableEq, Repr

/-- A value of the interface `credentials.PerRPCCredentials`: the login credentials
of the configuration itself, or credentials made by one of the auth packages. -/
inductive PerRPCCredentials where
  /-- The pointer `&config.BasicAuth`. -/
  | loginCredentials (creds : common.LoginCredentials)
  /-- Credentials built outside this file, named by a tag. -/
  | external (tag : String)
deriving DecidableEq, Repr

/-- The constructors of the auth packages that `perRpcCredentials` calls; each
returns credentials and an error, except `exec.NewAuthenticator`. -/
structure AuthExternals where
  AuthenticatePkce : oidc.PKCEDetails → Option PerRPCCredentials × Option GoError
  AuthenticateDevice : oidc.DeviceDetails → Option PerRPCCredentials × Option GoError
  AuthenticateWithPassword :
    oidc.ClientPasswordDetails → Option PerRPCCredentials × Option GoError
  AuthenticateWithClientCredentials :
    oidc.ClientCredentialsDetails → Option PerRPCCredentials × Option GoError
  AuthenticateKubernetes : oidc.KubernetesDetails → Option PerRPCCredentials × Option GoError
  NewSPNEGOCredentials :
    String → kerberos.ClientConfig → Option PerRPCCredentials × Option GoError
  NewAuthenticator : exec.CommandDetails → PerRPCCredentials

/-- The function `perRpcCredentials`. -/
def perRpcCredentials (aext : AuthExternals) (config : ApiConnectionDetails) :
    Option PerRPCCredentials × Option GoError :=
  if config.BasicAuth.Username ≠ "" then
    (some (.loginCredentials config.BasicAuth), none)
  else if config.OpenIdAuth.ProviderUrl ≠ "" then
    aext.AuthenticatePkce config.OpenIdAuth
  else if config.OpenIdDeviceAuth.ProviderUrl ≠ "" then
    aext.AuthenticateDevice config.OpenIdDeviceAuth
  else if config.OpenIdPasswordAuth.ProviderUrl ≠ "" then
    aext.AuthenticateWithPassword config.OpenIdPasswordAuth
  else if config.OpenIdClientCredentialsAuth.ProviderUrl ≠ "" then
    aext.AuthenticateWithClientCredentials config.OpenIdClientCredentialsAuth
  else if config.OpenIdKubernetesAuth.ProviderUrl ≠ "" then
    aext.AuthenticateKubernetes config.OpenIdKubernetesAuth
  else if config.KerberosAuth.Enabled then
    aext.NewSPNEGOCredentials config.ArmadaUrl config.KerberosAuth
  else if config.ExecAuth.Cmd ≠ "" then
    (some (aext.NewAuthenticator config.ExecAuth), none)
  else
    (none, none)

/-- The transport credentials a dial option can carry. -/
inductive TransportCredentials where
  /-- The value of `credentials.NewClientTLSFromCert(nil, "")`. -/
  | clientTLS
  /-- The value of `insecure.NewCredentials()`. -/
  | insecure
deriving DecidableEq, Repr

/-- A `grpc.DialOption`, as far as `transportCredentials` builds one. -/
inductive DialOption where
  /-- The option `grpc.WithTransportCredentials(creds)`. -/
  | WithTransportCredentials (creds : TransportCredentials)
deriving DecidableEq, Repr

/-- The function `transportCredentials`. -/
def transportCredentials (config : ApiConnectionDetails) : DialOption :=
  if !config.ForceNoTls && !strings.Contains config.ArmadaUrl "localhost" then
    .WithTransportCredentials .clientTLS
  else
    .WithTransportCredentials .insecure

/-- The outcome of a health check: the two results of `ArmadaHealthCheck` and the
URLs it passed to `http.Get`, in order. -/
structure HealthCheck where
  ok : Bool
  err : Option GoError
  requests : List String
deriving DecidableEq, Repr

/-- The method `ApiConnectionDetails.ArmadaHealthCheck`; `httpGet` stands for
`http.Get`, which gives an error or a response. -/
def ArmadaHealthCheck (httpGet : String → Except GoError http.Response)
    (a : ApiConnectionDetails) : HealthCheck :=
  let url := a.ArmadaRestUrl
  if url = "" then
    { ok := false, err := some "Armada server rest api url not provided", requests := [] }
  else
    let url := if !strings.HasPrefix url "http" then "http://" ++ url else url
    let healthEndpoint := url ++ "/health"
    match httpGet healthEndpoint with
    | .error err => { ok := false, err := some err, requests := [healthEndpoint] }
    | .ok resp =>
      if resp.StatusCode < 200 || resp.StatusCode > 399 then
        { ok := false, err := none, requests := [healthEndpoint] }
      else
        { ok := true, err := none, requests := [healthEndpoint] }

/-! #### The priority order of the auth strategies, as stated -/

/-- The auth strategies of an `ApiConnectionDetails`. -/
inductive Strategy where
  | BasicAuth
  | OpenIdAuth
  | OpenIdDeviceAuth
  | OpenIdPasswordAuth
  | OpenIdClientCredentialsAuth
  | OpenIdKubernetesAuth
  | KerberosAuth
  | ExecAuth
deriving DecidableEq, Repr

/-- The stated priority order of the strategies. -/
def Strategy.priority : List Strategy :=
  [.BasicAuth, .OpenIdAuth, .OpenIdDeviceAuth, .OpenIdPasswordAuth,
   .OpenIdClientCredentialsAuth, .OpenIdKubernetesAuth, .KerberosAuth, .ExecAuth]

/-- Whether a strategy is configured, as stated: a non-empty `Username`,
`ProviderUrl` or `Cmd`, or `Enabled`. -/
def Strategy.configured (config : ApiConnectionDetails) : Strategy → Bool
  | .BasicAuth => decide (config.BasicAuth.Username ≠ "")
  | .OpenIdAuth => decide (config.OpenIdAuth.ProviderUrl ≠ "")
  | .OpenIdDeviceAuth => decide (config.OpenIdDeviceAuth.ProviderUrl ≠ "")
  | .OpenIdPasswordAuth => decide (config.OpenIdPasswordAuth.ProviderUrl ≠ "")
  | .OpenIdClientCredentialsAuth => decide (config.OpenIdClientCredentialsAuth.ProviderUrl ≠ "")
  | .OpenIdKubernetesAuth => decide (config.OpenIdKubernetesAuth.ProviderUrl ≠ "")
  | .KerberosAuth => config.KerberosAuth.Enabled
  | .ExecAuth => decide (config.ExecAuth.Cmd ≠ "")

/-- What using a strategy returns. -/
def Strategy.use (aext : AuthExternals) (config : ApiConnectionDetails) :
    Strategy → Option PerRPCCredentials × Option GoError
  | .BasicAuth => (some (.loginCredentials config.BasicAuth), none)
  | .OpenIdAuth => aext.AuthenticatePkce config.OpenIdAuth
  | .OpenIdDeviceAuth => aext.AuthenticateDevice config.OpenIdDeviceAuth
  | .OpenIdPasswordAuth => aext.AuthenticateWithPassword config.OpenIdPasswordAuth
  | .OpenIdClientCredentialsAuth =>
    aext.AuthenticateWithClientCredentials config.OpenIdClientCredentialsAuth
  | .OpenIdKubernetesAuth => aext.AuthenticateKubernetes config.OpenIdKubernetesAuth
  | .KerberosAuth => aext.NewSPNEGOCredentials config.ArmadaUrl config.KerberosAuth
  | .ExecAuth => (some (aext.NewAuthenticator config.ExecAuth), none)

/-- The stated selection: the first configured strategy in priority order is used;
with none configured there are no credentials and no error. -/
def perRpcCredentialsByPriority (aext : AuthExternals) (config : ApiConnectionDetails) :
    Option PerRPCCredentials × Option GoError :=
  match Strategy.priority.find? (Strategy.configured config) with
  | some strategy => strategy.use aext config
  | none => (none, none)

/-! #### Sample data -/

/-- A configuration with nothing set. -/
def emptyConfig : ApiConnectionDetails :=
  { ArmadaUrl := "", ArmadaRestUrl := "", GrpcKeepAliveTime := 0, GrpcKeepAliveTimeout := 0,
    BasicAuth := { Username := "", rest := [] },
    OpenIdAuth := { ProviderUrl := "", rest := [] },
    OpenIdDeviceAuth := { ProviderUrl := "", rest := [] },
    OpenIdPasswordAuth := { ProviderUrl := "", rest := [] },
    OpenIdClientCredentialsAuth := { ProviderUrl := "", rest := [] },
    OpenIdKubernetesAuth := { ProviderUrl := "", rest := [] },
    KerberosAuth := { Enabled := false }, ForceNoTls := false,
    ExecAuth := { Cmd := "", rest := [] } }

/-- Sample auth constructors: each returns credentials tagged with its name. -/
def sampleAuth : AuthExternals :=
  { AuthenticatePkce := fun _ => (some (.external "pkce"), none),
    AuthenticateDevice := fun _ => (none, some "device flow failed"),
    AuthenticateWithPassword := fun _ => (some (.external "password"), none),
    AuthenticateWithClientCredentials := fun _ => (some (.external "client-credentials"), none),
    AuthenticateKubernetes := fun _ => (some (.external "kubernetes"), none),
    NewSPNEGOCredentials := fun _ _ => (some (.external "spnego"), none),
    NewAuthenticator := fun _ => .external "exec" }

/-- A sample `http.Get`: the server at `armada.example.com` answers `/health` with
200 over `http` and with 503 over `https`; every other request fails. -/
def sampleGet (url : String) : Except GoError http.Response :=
  if url = "http://armada.example.com/health" then .ok { StatusCode := 200 }
  else if url = "https://armada.example.com/health" then .ok { StatusCode := 503 }
  else .error "dial tcp: no such host"

end client

namespace ingestion

/-! ### The loop, iteration by iteration -/

theorem loopBody_nil (rc : MessageRowConverter) (ext : Externals) (ctx : context.Context)
    (i : Nat) (msg : Option pulsarutils.ConsumerMessage) (st : LoopState)
    (h : ackHandle msg = none) : loopBody rc ext ctx i msg st = none := by
  cases msg with
  | none => rfl
  | some m =>
    cases hm : m.Message with
    | none => simp [loopBody, hm]
    | some p => simp [ackHandle, hm] at h

theorem loopBody_eq (rc : MessageRowConverter) (ext : Externals) (ctx : context.Context)
    (i : Nat) (msg : Option pulsarutils.ConsumerMessage) (st : LoopState)
    (a : pulsarutils.ConsumerMessageId) (h : ackHandle msg = some a)
    (hi : i < st.messageIds.length) :
    loopBody rc ext ctx i msg st =
      some { messageIds := st.messageIds.set i (some a),
             events := st.events ++ (rowOf rc ext ctx msg).toList } := by
  cases msg with
  | none => simp [ackHandle] at h
  | some m =>
    cases hm : m.Message with
    | none => simp [ackHandle, hm] at h
    | some p =>
      simp only [ackHandle, hm, Option.some.injEq] at h
      subst h
      simp only [loopBody, hm, sliceSet, hi, rowOf, decodedSequence, Option.bind_eq_bind,
        Option.some_bind, if_true]
      cases hc : ext.IsControlMessage p with
      | false => simp
      | true =>
        cases hx : p.Index with
        | none => simp
        | some ix =>
          cases hu : ext.UnmarshalEventSequence ctx p.Payload with
          | error e => simp
          | ok es => simp [rowFor, normalizedSequence]

theorem loopFrom_eq (rc : MessageRowConverter) (ext : Externals) (ctx : context.Context)
    (rest : List (Option pulsarutils.ConsumerMessage)) :
    ∀ (done : List (Option pulsarutils.ConsumerMessageId)) (events : List model.Event),
      nonNilBatch rest →
      loopFrom rc ext ctx done.length rest
          { messageIds := done ++ List.replicate rest.length none, events := events } =
        some { messageIds := done ++ rest.map ackHandle,
               events := events ++ rest.filterMap (rowOf rc ext ctx) } := by
  induction rest with
  | nil => intro done events _; simp [loopFrom]
  | cons msg rest ih =>
    intro done events hnn
    have hmsg : (ackHandle msg).isSome = true := hnn msg (List.mem_cons_self _ _)
    have hrest : nonNilBatch rest := fun m hm => hnn m (List.mem_cons_of_mem _ hm)
    obtain ⟨a, ha⟩ := Option.isSome_iff_exists.mp hmsg
    have hi : done.length < (done ++ List.replicate (msg :: rest).length none).length := by
      simp
    rw [loopFrom, loopBody_eq rc ext ctx _ msg _ a ha hi]
    have hset : (done ++ List.replicate (msg :: rest).length none).set done.length (some a) =
        (done ++ [some a]) ++ List.replicate rest.length none := by
      simp [List.replicate_succ, List.set_append]
    have hlen : done.length + 1 = (done ++ [some a]).length := by simp
    simp only [hset, hlen]
    rw [ih (done ++ [some a]) _ hrest]
    cases hr : rowOf rc ext ctx msg <;> simp [ha, hr, List.filterMap_cons]

theorem loopFrom_nonNil (rc : MessageRowConverter) (ext : Externals) (ctx : context.Context)
    (rest : List (Option pulsarutils.ConsumerMessage)) :
    ∀ (i : Nat) (st st' : LoopState), loopFrom rc ext ctx i rest st = some st' →
      nonNilBatch rest := by
  induction rest with
  | nil => intro _ _ _ _ m hm; simp at hm
  | cons msg rest ih =>
    intro i st st' h m hm
    rw [loopFrom] at h
    cases hb : loopBody rc ext ctx i msg st with
    | none => simp [hb] at h
    | some st1 =>
      simp only [hb] at h
      rcases List.mem_cons.mp hm with rfl | hm
      · cases ha : ackHandle m with
        | none => rw [loopBody_nil rc ext ctx i m st ha] at hb; simp at hb
        | some a => rfl
      · exact ih (i + 1) st1 st' h m hm

/-- The result of `ConvertBatch` on a batch without nil entries: the ack handles of
all entries in order, and the rows of the entries that yield one, in order. -/
theorem ConvertBatch_eq (rc : MessageRowConverter) (ext : Externals) (ctx : context.Context)
    (batch : List (Option pulsarutils.ConsumerMessage)) (h : nonNilBatch batch) :
    ConvertBatch rc ext ctx batch =
      some { MessageIds := batch.map ackHandle, Events := batch.filterMap (rowOf rc ext ctx) } := by
  have := loopFrom_eq rc ext ctx batch [] [] h
  simp only [List.length_nil, List.nil_append] at this
  simp [ConvertBatch, this]

/-- The method `ConvertBatch` returns exactly on the batches without nil entries. -/
theorem ConvertBatch_some_iff (rc : MessageRowConverter) (ext : Externals) (ctx : context.Context)
    (batch : List (Option pulsarutils.ConsumerMessage)) (u : model.BatchUpdate) :
    ConvertBatch rc ext ctx batch = some u ↔
      nonNilBatch batch ∧
        u = { MessageIds := batch.map ackHandle, Events := batch.filterMap (rowOf rc ext ctx) } := by
  constructor
  · intro h
    have hnn : nonNilBatch batch := by
      unfold ConvertBatch at h
      cases hl : loopFrom rc ext ctx 0 batch
          { messageIds := List.replicate batch.length none, events := [] } with
      | none => simp [hl] at h
      | some st => exact loopFrom_nonNil rc ext ctx batch 0 _ st hl
    rw [ConvertBatch_eq rc ext ctx batch hnn] at h
    exact ⟨hnn, (Option.some.inj h).symm⟩
  · rintro ⟨hnn, rfl⟩
    exact ConvertBatch_eq rc ext ctx batch hnn

theorem filterMap_id_length_of_all_some {α : Type} (l : List (Option α))
    (h : ∀ slot ∈ l, ∃ a, slot = some a) : (l.filterMap id).length = l.length := by
  induction l with
  | nil => rfl
  | cons x rest ih =>
    obtain ⟨a, rfl⟩ := h x (List.mem_cons_self _ _)
    have hrest := ih fun slot hslot => h slot (List.mem_cons_of_mem _ hslot)
    simp [List.filterMap_cons, hrest]

theorem filterMap_getElem_split {α β : Type} (f : α → Option β) (l : List α) :
    ∀ (j : Nat) (b : β), (l.filterMap f)[j]? = some b →
      ∃ before x after, l = before ++ x :: after ∧ f x = some b ∧
        (before.filterMap f).length = j := by
  induction l with
  | nil => intro j b h; simp at h
  | cons a rest ih =>
    intro j b h
    cases hf : f a with
    | none =>
      rw [List.filterMap_cons, hf] at h
      obtain ⟨before, x, after, hsplit, hx, hlen⟩ := ih j b h
      refine ⟨a :: before, x, after, by rw [hsplit]; rfl, hx, ?_⟩
      simpa [List.filterMap_cons, hf] using hlen
    | some c =>
      rw [List.filterMap_cons, hf] at h
      cases j with
      | zero =>
        simp only [List.getElem?_cons_zero, Option.some.injEq] at h
        subst h
        exact ⟨[], a, rest, rfl, hf, rfl⟩
      | succ k =>
        simp only [List.getElem?_cons_succ] at h
        obtain ⟨before, x, after, hsplit, hx, hlen⟩ := ih k b h
        refine ⟨a :: before, x, after, by rw [hsplit]; rfl, hx, ?_⟩
        simpa [List.filterMap_cons, hf] using hlen

/-! ### Ack handles -/

/-- C1: for every batch, whatever mix of valid, non-control, index-less, undecodable
or uncompressible messages it holds (the empty batch included), `ConvertBatch`
returns on a batch without nil entries, and every update it returns has exactly
`len(batch)` ack handles: `MessageIds` has `len(batch)` slots, every slot holds a
handle (none is left nil), so the handles number `len(batch)`. -/
theorem ConvertBatch_ackHandles_length (rc : MessageRowConverter) (ext : Externals)
    (ctx : context.Context) (batch : List (Option pulsarutils.ConsumerMessage)) :
    (nonNilBatch batch → ∃ u, ConvertBatch rc ext ctx batch = some u) ∧
      ∀ u, ConvertBatch rc ext ctx batch = some u →
        u.MessageIds.length = batch.length ∧
        (∀ slot ∈ u.MessageIds, ∃ handle, slot = some handle) ∧
        (u.MessageIds.filterMap id).length = batch.length := by
  refine ⟨fun h => ⟨_, ConvertBatch_eq rc ext ctx batch h⟩, fun u hu => ?_⟩
  obtain ⟨hnn, rfl⟩ := (ConvertBatch_some_iff rc ext ctx batch u).mp hu
  have hall : ∀ slot ∈ batch.map ackHandle, ∃ handle, slot = some handle := by
    intro slot hslot
    obtain ⟨msg, hmsg, rfl⟩ := List.mem_map.mp hslot
    exact Option.isSome_iff_exists.mp (hnn msg hmsg)
  refine ⟨by simp, hall, ?_⟩
  rw [filterMap_id_length_of_all_some _ hall]
  simp

theorem ConvertBatch_ackHandles_length_witness :
    nonNilBatch sampleBatch ∧
      ∃ u, ConvertBatch failingRc sampleExt sampleCtx sampleBatch = some u ∧
        u.MessageIds.length = 3 ∧
        (∀ slot ∈ u.MessageIds, ∃ handle, slot = some handle) ∧
        (u.MessageIds.filterMap id).length = 3 :=
  have h := ConvertBatch_ackHandles_length failingRc sampleExt sampleCtx sampleBatch
  ⟨by decide, (h.1 (by decide)).elim fun u hu => ⟨u, hu, h.2 u hu⟩⟩

/-- C2: for every batch without nil entries and every index `i` into it, the `i`-th
ack handle of the update `ConvertBatch` returns carries the message id and the
consumer id of the `i`-th message, whatever happens to that message later. -/
theorem ConvertBatch_ackHandle_positional (rc : MessageRowConverter) (ext : Externals)
    (ctx : context.Context) (batch : List (Option pulsarutils.ConsumerMessage))
    (hnn : nonNilBatch batch) (i : Nat) (m : pulsarutils.ConsumerMessage) (p : pulsar.Message)
    (hi : batch[i]? = some (some m)) (hp : m.Message = some p) :
    ∃ u, ConvertBatch rc ext ctx batch = some u ∧
      u.MessageIds[i]? = some (some { MessageId := p.ID, ConsumerId := m.ConsumerId }) := by
  refine ⟨_, ConvertBatch_eq rc ext ctx batch hnn, ?_⟩
  simp [List.getElem?_map, hi, ackHandle, hp]

theorem ConvertBatch_ackHandle_positional_witness :
    ∃ u, ConvertBatch failingRc sampleExt sampleCtx sampleBatch = some u ∧
      u.MessageIds[2]? = some (some { MessageId := 13, ConsumerId := 4 }) :=
  ConvertBatch_ackHandle_positional failingRc sampleExt sampleCtx sampleBatch (by decide) 2
    undecodableMsg _ rfl rfl

/-! ### Skipped messages -/

/-- C3: a message that is not a control message, or has no index, or whose payload
fails to decode contributes no storage row: the rows of the batch equal the rows of
the batch without that message, while the ack handles are those of the shorter
batch with exactly one handle for the message inserted at its position. -/
theorem ConvertBatch_skipped_message (rc : MessageRowConverter) (ext : Externals)
    (ctx : context.Context) (before after : List (Option pulsarutils.ConsumerMessage))
    (m : pulsarutils.ConsumerMessage) (p : pulsar.Message)
    (hnn : nonNilBatch (before ++ some m :: after)) (hp : m.Message = some p)
    (hskip : ext.IsControlMessage p = false ∨ p.Index = none ∨
      ∃ e, ext.UnmarshalEventSequence ctx p.Payload = .error e) :
    ∃ u v, ConvertBatch rc ext ctx (before ++ some m :: after) = some u ∧
      ConvertBatch rc ext ctx (before ++ after) = some v ∧
      u.Events = v.Events ∧
      u.MessageIds = v.MessageIds.take before.length ++
        some { MessageId := p.ID, ConsumerId := m.ConsumerId } ::
          v.MessageIds.drop before.length := by
  have hnn2 : nonNilBatch (before ++ after) := by
    intro x hx
    apply hnn x
    rcases List.mem_append.mp hx with h | h
    · exact List.mem_append_left _ h
    · exact List.mem_append_right _ (List.mem_cons_of_mem _ h)
  have hrow : rowOf rc ext ctx (some m) = none := by
    simp only [rowOf, hp, decodedSequence]
    rcases hskip with h | h | ⟨e, h⟩
    · simp [h]
    · simp [h]
    · simp [h]
  refine ⟨_, _, ConvertBatch_eq rc ext ctx _ hnn, ConvertBatch_eq rc ext ctx _ hnn2, ?_, ?_⟩
  · simp [List.filterMap_append, List.filterMap_cons, hrow]
  · have h1 : List.take before.length (List.map ackHandle before) = List.map ackHandle before := by
      apply List.take_of_length_le; simp
    have h2 : List.drop before.length (List.map ackHandle before) = [] := by
      apply List.drop_of_length_le; simp
    simp [List.take_append_eq_append_take, List.drop_append_eq_append_drop, ackHandle, hp, h1, h2]

theorem ConvertBatch_skipped_message_witness :
    ∃ u v, ConvertBatch sampleRc sampleExt sampleCtx
        ([some validMsg, some nonControlMsg] ++ some undecodableMsg :: [some validMsg]) = some u ∧
      ConvertBatch sampleRc sampleExt sampleCtx
        ([some validMsg, some nonControlMsg] ++ [some validMsg]) = some v ∧
      u.Events = v.Events ∧
      u.MessageIds = v.MessageIds.take 2 ++
        some { MessageId := 13, ConsumerId := 4 } :: v.MessageIds.drop 2 :=
  ConvertBatch_skipped_message sampleRc sampleExt sampleCtx [some validMsg, some nonControlMsg]
    [some validMsg] undecodableMsg _ (by decide) rfl
    (Or.inr (Or.inr ⟨"proto: cannot parse", rfl⟩))

/-! ### Serialization and compression failures -/

/-- C4: the code at a batch holding one valid control message. With a compressor
that fails, and likewise with a serializer that fails, `ConvertBatch` still appends
a storage row for the message, carrying the bytes the failed call returned. -/
theorem ConvertBatch_appends_row_after_failure :
    (∀ b, (failingRc.compressor.Compress b).2 = some "compress: failed") ∧
      ConvertBatch failingRc sampleExt sampleCtx [some validMsg] =
        some { MessageIds := [some { MessageId := 11, ConsumerId := 3 }],
               Events := [{ Queue := "queue-a", Jobset := "jobset-1", Event := [] }] } ∧
      (∀ d, (failingMarshalExt.Marshal d).2 = some "proto: marshal failed") ∧
      ConvertBatch sampleRc failingMarshalExt sampleCtx [some validMsg] =
        some { MessageIds := [some { MessageId := 11, ConsumerId := 3 }],
               Events := [{ Queue := "queue-a", Jobset := "jobset-1", Event := [0] }] } := by
  refine ⟨fun _ => rfl, by decide, fun _ => rfl, by decide⟩

/-! ### Row keys and the stored sequence -/

theorem mem_filterMap_rowOf (rc : MessageRowConverter) (ext : Externals) (ctx : context.Context)
    (batch : List (Option pulsarutils.ConsumerMessage)) (row : model.Event)
    (h : row ∈ batch.filterMap (rowOf rc ext ctx)) :
    ∃ m p es, some m ∈ batch ∧ m.Message = some p ∧
      ext.IsControlMessage p = true ∧ p.Index.isSome = true ∧
      ext.UnmarshalEventSequence ctx p.Payload = .ok es ∧ row = rowFor rc ext p es := by
  obtain ⟨msg, hmem, hrow⟩ := List.mem_filterMap.mp h
  cases msg with
  | none => simp [rowOf] at hrow
  | some m =>
    cases hm : m.Message with
    | none => simp [rowOf, hm] at hrow
    | some p =>
      simp only [rowOf, hm, decodedSequence] at hrow
      by_cases hc : ext.IsControlMessage p = true ∧ p.Index.isSome = true
      · rw [if_pos hc] at hrow
        cases hu : ext.UnmarshalEventSequence ctx p.Payload with
        | error e => simp [hu] at hrow
        | ok es =>
          simp only [hu, Option.map_some', Option.some.injEq] at hrow
          exact ⟨m, p, es, hmem, hm, hc.1, hc.2, hu, hrow.symm⟩
      · rw [if_neg hc] at hrow
        simp at hrow

/-- C5: every storage row `ConvertBatch` produces, say the `j`-th, has one originating
message: the batch splits as `before ++ m :: after` where the messages `before` yield
exactly `j` rows and `m` is a control message, has an index and decodes to a sequence
`es`. The row's `Queue` and `Jobset` are the queue and job-set name of `es`, and its
payload is the compressed serialization of `stored`, the sequence of that same message
with its queue and job-set name emptied (and its created times filled). So wherever
decompression and decoding invert the compressor and the serializer on this payload,
decoding it yields that sequence, with an empty queue and job-set name. -/
theorem ConvertBatch_row_keys (rc : MessageRowConverter) (ext : Externals)
    (ctx : context.Context) (batch : List (Option pulsarutils.ConsumerMessage))
    (hnn : nonNilBatch batch) :
    ∃ u, ConvertBatch rc ext ctx batch = some u ∧
      ∀ (j : Nat) (row : model.Event), u.Events[j]? = some row →
        ∃ before after m p es stored v,
          batch = before ++ some m :: after ∧ m.Message = some p ∧
          ext.IsControlMessage p = true ∧ p.Index.isSome = true ∧
          ext.UnmarshalEventSequence ctx p.Payload = .ok es ∧
          ConvertBatch rc ext ctx before = some v ∧ v.Events.length = j ∧
          row.Queue = es.Queue ∧ row.Jobset = es.JobSetName ∧
          stored = { Queue := "", JobSetName := "",
                     Events := fillCreated p.PublishTime es.Events } ∧
          stored.Queue = "" ∧ stored.JobSetName = "" ∧
          row.Event = (rc.compressor.Compress (ext.Marshal { EventSequence := stored }).1).1 ∧
          ∀ (decompress : Bytes → Option Bytes)
            (unmarshal : Bytes → Option armadaevents.DatabaseSequence),
            decompress (rc.compressor.Compress (ext.Marshal { EventSequence := stored }).1).1 =
                some (ext.Marshal { EventSequence := stored }).1 →
            unmarshal (ext.Marshal { EventSequence := stored }).1 =
                some { EventSequence := stored } →
            ∃ d, (decompress row.Event).bind unmarshal = some d ∧ d.EventSequence = stored ∧
              d.EventSequence.Queue = "" ∧ d.EventSequence.JobSetName = "" := by
  refine ⟨_, ConvertBatch_eq rc ext ctx batch hnn, ?_⟩
  intro j row hrow
  obtain ⟨before, msg, after, hsplit, hmsg, hlen⟩ :=
    filterMap_getElem_split (rowOf rc ext ctx) batch j row hrow
  have hmem : row ∈ [msg].filterMap (rowOf rc ext ctx) := by
    simp [List.filterMap_cons, hmsg]
  obtain ⟨m, p, es, hm1, hm, hc, hx, hu, rfl⟩ :=
    mem_filterMap_rowOf rc ext ctx [msg] row hmem
  have hmsgeq : msg = some m := (List.mem_singleton.mp hm1).symm
  subst hmsgeq
  have hb : nonNilBatch before :=
    fun x hx => hnn x (by rw [hsplit]; exact List.mem_append_left _ hx)
  refine ⟨before, after, m, p, es, normalizedSequence p es, _, hsplit, hm, hc, hx, hu,
    ConvertBatch_eq rc ext ctx before hb, hlen, rfl, rfl, rfl, rfl, rfl, rfl, ?_⟩
  intro decompress unmarshal hd hun
  refine ⟨{ EventSequence := normalizedSequence p es }, ?_, rfl, rfl, rfl⟩
  simp only [rowFor, hd, Option.some_bind, hun]

theorem ConvertBatch_row_keys_witness :
    ∃ u before after m p es v,
      ConvertBatch sampleRc sampleExt sampleCtx
        [some validMsg, some nonControlMsg, some secondValidMsg] = some u ∧
      u.Events[1]? = some { Queue := "queue-a", Jobset := "jobset-1", Event := [4, 0, 0, 4, 5000] } ∧
      [some validMsg, some nonControlMsg, some secondValidMsg] = before ++ some m :: after ∧
      m.Message = some p ∧
      sampleExt.UnmarshalEventSequence sampleCtx p.Payload = .ok es ∧
      ConvertBatch sampleRc sampleExt sampleCtx before = some v ∧ v.Events.length = 1 ∧
      es.Queue = "queue-a" ∧ es.JobSetName = "jobset-1" := by
  obtain ⟨u, hu, h⟩ := ConvertBatch_row_keys sampleRc sampleExt sampleCtx
    [some validMsg, some nonControlMsg, some secondValidMsg] (by decide)
  have hval : ConvertBatch sampleRc sampleExt sampleCtx
      [some validMsg, some nonControlMsg, some secondValidMsg] =
      some { MessageIds := [some { MessageId := 11, ConsumerId := 3 },
                            some { MessageId := 12, ConsumerId := 3 },
                            some { MessageId := 15, ConsumerId := 5 }],
             Events := [{ Queue := "queue-a", Jobset := "jobset-1",
                          Event := [6, 0, 0, 7, 5, 9, 1000] },
                        { Queue := "queue-a", Jobset := "jobset-1",
                          Event := [4, 0, 0, 4, 5000] }] } := by decide
  have hueq := Option.some.inj (hu.symm.trans hval)
  subst hueq
  obtain ⟨before, after, m, p, es, stored, v, hsplit, hm, _, _, hdec, hv, hlen, hq, hj, _⟩ :=
    h 1 { Queue := "queue-a", Jobset := "jobset-1", Event := [4, 0, 0, 4, 5000] } rfl
  exact ⟨_, before, after, m, p, es, v, hu, rfl, hsplit, hm, hdec, hv, hlen, hq.symm,
    hj.symm⟩

/-! ### Backfilling the created time -/

theorem fillCreated_getElem (t : time.Time) (events : List armadaevents.EventSequence_Event)
    (i : Nat) (e : armadaevents.EventSequence_Event) (h : events[i]? = some e) :
    ∃ f, (fillCreated t events)[i]? = some f ∧ f.Event = e.Event ∧
      (∀ c, e.Created = some c → f.Created = some c) ∧
      (e.Created = none → f.Created = some { unixNano := t.unixNano, loc := time.UTC }) := by
  simp only [fillCreated, List.getElem?_map, h, Option.map_some']
  cases hc : e.Created with
  | none => exact ⟨_, rfl, rfl, fun c hc2 => by simp at hc2, fun _ => rfl⟩
  | some c => exact ⟨_, rfl, rfl, fun c2 hc2 => by rw [← hc2, hc], fun hn => by simp at hn⟩

/-- C6: for a message of the batch that decodes to a sequence `es`, the row it yields
is built from the list `events` of normalized events: as many events as `es` has, in
the same order, each with its body unchanged and with `Created` equal to the decoded
value where one was present and otherwise to the message's own publish time, the
same instant in UTC. -/
theorem ConvertBatch_created_backfill (rc : MessageRowConverter) (ext : Externals)
    (ctx : context.Context) (before after : List (Option pulsarutils.ConsumerMessage))
    (m : pulsarutils.ConsumerMessage) (p : pulsar.Message) (es : armadaevents.EventSequence)
    (hnn : nonNilBatch (before ++ some m :: after)) (hp : m.Message = some p)
    (hc : ext.IsControlMessage p = true) (hx : p.Index.isSome = true)
    (hu : ext.UnmarshalEventSequence ctx p.Payload = .ok es) :
    ∃ u v w events,
      ConvertBatch rc ext ctx (before ++ some m :: after) = some u ∧
      ConvertBatch rc ext ctx before = some v ∧
      ConvertBatch rc ext ctx after = some w ∧
      u.Events = v.Events ++
        { Queue := es.Queue, Jobset := es.JobSetName,
          Event := (rc.compressor.Compress (ext.Marshal
            { EventSequence := { Queue := "", JobSetName := "", Events := events } }).1).1 } ::
          w.Events ∧
      events.length = es.Events.length ∧
      ∀ (i : Nat) (e : armadaevents.EventSequence_Event), es.Events[i]? = some e →
        ∃ f, events[i]? = some f ∧ f.Event = e.Event ∧
          (∀ c, e.Created = some c → f.Created = some c) ∧
          (e.Created = none →
            f.Created = some { unixNano := p.PublishTime.unixNano, loc := time.UTC }) := by
  have hb : nonNilBatch before := fun x hx => hnn x (List.mem_append_left _ hx)
  have ha : nonNilBatch after :=
    fun x hx => hnn x (List.mem_append_right _ (List.mem_cons_of_mem _ hx))
  have hrow : rowOf rc ext ctx (some m) = some (rowFor rc ext p es) := by
    simp [rowOf, hp, decodedSequence, hc, hx, hu]
  refine ⟨_, _, _, fillCreated p.PublishTime es.Events, ConvertBatch_eq rc ext ctx _ hnn,
    ConvertBatch_eq rc ext ctx _ hb, ConvertBatch_eq rc ext ctx _ ha, ?_, ?_, ?_⟩
  · simp [List.filterMap_append, List.filterMap_cons, hrow, rowFor, normalizedSequence]
  · simp [fillCreated]
  · intro i e he
    exact fillCreated_getElem p.PublishTime es.Events i e he

theorem ConvertBatch_created_backfill_witness :
    ∃ u v w events,
      ConvertBatch sampleRc sampleExt sampleCtx
        ([some nonControlMsg] ++ some validMsg :: [some undecodableMsg]) = some u ∧
      ConvertBatch sampleRc sampleExt sampleCtx [some nonControlMsg] = some v ∧
      ConvertBatch sampleRc sampleExt sampleCtx [some undecodableMsg] = some w ∧
      u.Events = v.Events ++
        { Queue := "queue-a", Jobset := "jobset-1",
          Event := (sampleRc.compressor.Compress (sampleExt.Marshal
            { EventSequence := { Queue := "", JobSetName := "", Events := events } }).1).1 } ::
          w.Events ∧
      events.length = 2 ∧
      ∀ (i : Nat) (e : armadaevents.EventSequence_Event),
        [({ Created := some { unixNano := 5, loc := ⟨"Local"⟩ }, Event := 7 } :
            armadaevents.EventSequence_Event),
          { Created := none, Event := 9 }][i]? = some e →
        ∃ f, events[i]? = some f ∧ f.Event = e.Event ∧
          (∀ c, e.Created = some c → f.Created = some c) ∧
          (e.Created = none → f.Created = some { unixNano := 1000, loc := time.UTC }) :=
  ConvertBatch_created_backfill sampleRc sampleExt sampleCtx [some nonControlMsg]
    [some undecodableMsg] validMsg _
    { Queue := "queue-a", JobSetName := "jobset-1",
      Events := [{ Created := some { unixNano := 5, loc := ⟨"Local"⟩ }, Event := 7 },
                 { Created := none, Event := 9 }] }
    (by decide) rfl (by decide) rfl rfl

/-! ### The stage -/

theorem step_budget (ext : Externals) (s t : Stage) (a : Action)
    (h : step ext s a = some t) : t.budget + 1 ≤ s.budget := by
  obtain ⟨c, r, msgs, worker, cap, out, closed, emitted, saw⟩ := s
  cases a <;> simp only [step] at h
  · -- receive
    split at h
    · split at h <;> (cases h; simp [Stage.budget]; omega)
    · cases h
  · -- sendBuffered
    split at h
    · split at h
      · cases h; simp [Stage.budget]; omega
      · cases h
    · cases h
  · -- sendDirect
    split at h
    · split at h
      · cases h; simp [Stage.budget]; omega
      · cases h
    · cases h
  · -- read
    split at h
    · cases h
    · cases h; simp [Stage.budget]; omega
    · cases h
  · -- close
    split at h
    · cases h; simp [Stage.budget]; omega
    · cases h
  · -- readClosed
    split at h
    · rename_i hc
      cases h
      simp [Stage.budget, hc.2.2]
    · cases h

theorem run_budget (ext : Externals) (sched : List Action) :
    ∀ (s t : Stage), run ext s sched = some t → t.budget + sched.length ≤ s.budget := by
  induction sched with
  | nil => intro s t h; simp only [run, Option.some.injEq] at h; subst h; simp
  | cons a rest ih =>
    intro s t h
    rw [run] at h
    cases hs : step ext s a with
    | none => simp [hs] at h
    | some m =>
      simp only [hs] at h
      have h1 := step_budget ext s m a hs
      have h2 := ih m t h
      simp only [List.length_cons]
      omega

theorem step_inv (rc : MessageRowConverter) (ext : Externals) (ctx : context.Context)
    (batches : List (List (Option pulsarutils.ConsumerMessage))) (s t : Stage) (a : Action)
    (hinv : StageInv rc ext ctx batches s) (h : step ext s a = some t) :
    StageInv rc ext ctx batches t := by
  obtain ⟨c, r, msgs, worker, cap, out, closed, emitted, saw⟩ := s
  obtain ⟨hc, hr, hinv⟩ := hinv
  dsimp only at hc hr hinv
  subst hc hr
  cases a
  · -- receive
    cases worker <;> cases msgs <;> simp only [step, reduceCtorEq] at h
    rename_i b rest
    dsimp only at hinv
    cases hu : ConvertBatch r ext c b with
    | some u =>
      simp only [hu, Option.some.injEq] at h
      subst h
      refine ⟨rfl, rfl, ?_⟩
      simpa [hu] using hinv
    | none =>
      simp only [hu, Option.some.injEq] at h
      subst h
      refine ⟨rfl, rfl, ?_⟩
      dsimp only
      refine ⟨?_, hinv.2.1, hinv.2.2⟩
      rw [hinv.1]
      exact List.prefix_append _ _
  · -- sendBuffered
    cases worker <;> simp only [step, reduceCtorEq] at h
    rename_i u
    dsimp only at hinv
    split at h
    · simp only [Option.some.injEq] at h
      subst h
      refine ⟨rfl, rfl, ?_⟩
      simpa using hinv
    · cases h
  · -- sendDirect
    cases worker <;> simp only [step, reduceCtorEq] at h
    rename_i u
    dsimp only at hinv
    split at h
    · rename_i ho
      subst ho
      simp only [Option.some.injEq] at h
      subst h
      refine ⟨rfl, rfl, ?_⟩
      simpa using hinv
    · cases h
  · -- read
    cases worker <;> cases out <;> simp only [step, reduceCtorEq, Option.some.injEq] at h <;>
      subst h <;> refine ⟨rfl, rfl, ?_⟩ <;> dsimp only at hinv ⊢
    · simpa using hinv
    · simpa using hinv
    · refine ⟨by simpa using hinv.1, hinv.2.1, hinv.2.2.1, ?_⟩
      intro hs
      have := hinv.2.2.2 hs
      simp at this
  · -- close
    cases worker <;> cases msgs <;> simp only [step, reduceCtorEq, Option.some.injEq] at h
    subst h
    dsimp only at hinv
    refine ⟨rfl, rfl, ?_⟩
    dsimp only
    refine ⟨by simpa using hinv.1, rfl, rfl, ?_⟩
    intro hs
    rw [hinv.2.2] at hs
    cases hs
  · -- readClosed
    simp only [step] at h
    split at h
    · rename_i hcond
      obtain ⟨hcl, ho, hs⟩ := hcond
      subst hcl ho hs
      simp only [Option.some.injEq] at h
      subst h
      refine ⟨rfl, rfl, ?_⟩
      cases worker with
      | receiving => simp at hinv
      | sending v => simp at hinv
      | finished =>
        dsimp only at hinv ⊢
        exact ⟨hinv.1, hinv.2.1, rfl, fun _ => rfl⟩
      | panicked => simp at hinv
    · cases h

theorem run_inv (rc : MessageRowConverter) (ext : Externals) (ctx : context.Context)
    (batches : List (List (Option pulsarutils.ConsumerMessage))) (sched : List Action) :
    ∀ (s t : Stage), StageInv rc ext ctx batches s → run ext s sched = some t →
      StageInv rc ext ctx batches t := by
  induction sched with
  | nil => intro s t hinv h; simp only [run, Option.some.injEq] at h; subst h; exact hinv
  | cons a rest ih =>
    intro s t hinv h
    rw [run] at h
    cases hs : step ext s a with
    | none => simp [hs] at h
    | some m =>
      simp only [hs] at h
      exact ih m t (step_inv rc ext ctx batches s m a hinv hs) h

theorem step_noPanic (ext : Externals) (s t : Stage) (a : Action)
    (hnp : NoPanic s) (h : step ext s a = some t) : NoPanic t := by
  obtain ⟨c, r, msgs, worker, cap, out, closed, emitted, saw⟩ := s
  obtain ⟨hw, hm⟩ := hnp
  dsimp only at hw hm
  cases a
  · cases worker <;> cases msgs <;> simp only [step, reduceCtorEq] at h
    rename_i b rest
    obtain ⟨u, hu⟩ := Option.isSome_iff_exists.mp
      (by rw [ConvertBatch_eq r ext c b (hm b (List.mem_cons_self _ _))]; rfl :
        (ConvertBatch r ext c b).isSome = true)
    simp only [hu, Option.some.injEq] at h
    subst h
    exact ⟨by simp, fun x hx => hm x (List.mem_cons_of_mem _ hx)⟩
  · cases worker <;> simp only [step, reduceCtorEq] at h
    split at h
    · simp only [Option.some.injEq] at h
      subst h
      exact ⟨by simp, hm⟩
    · cases h
  · cases worker <;> simp only [step, reduceCtorEq] at h
    split at h
    · simp only [Option.some.injEq] at h
      subst h
      exact ⟨by simp, hm⟩
    · cases h
  · cases worker <;> cases out <;> simp only [step, reduceCtorEq, Option.some.injEq] at h <;>
      subst h <;> exact ⟨by simp, hm⟩
  · cases worker <;> cases msgs <;> simp only [step, reduceCtorEq, Option.some.injEq] at h
    subst h
    exact ⟨by simp, hm⟩
  · simp only [step] at h
    split at h
    · simp only [Option.some.injEq] at h
      subst h
      exact ⟨hw, hm⟩
    · cases h

theorem run_noPanic (ext : Externals) (sched : List Action) :
    ∀ (s t : Stage), NoPanic s → run ext s sched = some t → NoPanic t := by
  induction sched with
  | nil => intro s t hnp h; simp only [run, Option.some.injEq] at h; subst h; exact hnp
  | cons a rest ih =>
    intro s t hnp h
    rw [run] at h
    cases hs : step ext s a with
    | none => simp [hs] at h
    | some m =>
      simp only [hs] at h
      exact ih m t (step_noPanic ext s m a hnp hs) h

theorem step_enabled (rc : MessageRowConverter) (ext : Externals) (ctx : context.Context)
    (batches : List (List (Option pulsarutils.ConsumerMessage))) (s : Stage)
    (hinv : StageInv rc ext ctx batches s) (hnp : NoPanic s) (hs : s.sawClose = false) :
    ∃ a t, step ext s a = some t := by
  obtain ⟨c, r, msgs, worker, cap, out, closed, emitted, saw⟩ := s
  obtain ⟨_, _, hinv⟩ := hinv
  dsimp only at hinv hs
  cases worker with
  | receiving =>
    cases msgs with
    | nil => exact ⟨.close, _, rfl⟩
    | cons b rest =>
      refine ⟨.receive, ?_⟩
      cases hu : ConvertBatch r ext c b <;> simp [step, hu]
  | sending u =>
    cases out with
    | nil => exact ⟨.sendDirect, by simp [step]⟩
    | cons v rest => exact ⟨.read, by simp [step]⟩
  | finished =>
    cases out with
    | nil =>
      dsimp only at hinv
      exact ⟨.readClosed, by simp [step, hinv.2.2.1, hs]⟩
    | cons v rest => exact ⟨.read, by simp [step]⟩
  | panicked => exact absurd rfl hnp.1

theorem StageInv_emitted (rc : MessageRowConverter) (ext : Externals)
    (ctx : context.Context) (batches : List (List (Option pulsarutils.ConsumerMessage)))
    (s : Stage) (hinv : StageInv rc ext ctx batches s) :
    s.emitted.map some <+: batches.map (ConvertBatch rc ext ctx) ∧
      (s.sawClose = true → s.emitted.map some = batches.map (ConvertBatch rc ext ctx)) := by
  obtain ⟨c, r, msgs, worker, cap, out, closed, emitted, saw⟩ := s
  obtain ⟨_, _, hinv⟩ := hinv
  dsimp only at hinv ⊢
  cases worker with
  | receiving =>
    dsimp only at hinv
    refine ⟨?_, fun hs => by rw [hinv.2.2] at hs; cases hs⟩
    rw [hinv.1, List.append_assoc]
    exact List.prefix_append _ _
  | sending u =>
    dsimp only at hinv
    refine ⟨?_, fun hs => by rw [hinv.2.2] at hs; cases hs⟩
    rw [hinv.1, List.append_assoc]
    exact List.prefix_append _ _
  | finished =>
    dsimp only at hinv
    refine ⟨?_, fun hs => ?_⟩
    · rw [hinv.1]
      exact List.prefix_append _ _
    · rw [hinv.1, hinv.2.2.2 hs]
      simp
  | panicked =>
    dsimp only at hinv
    refine ⟨?_, fun hs => by rw [hinv.2.2] at hs; cases hs⟩
    exact (List.prefix_append _ _).trans hinv.1

/-- C7, as amended: for every list of batches delivered on the input channel before it
is closed and every buffer size `bufferSize >= 0` that `make` accepts (a buffer of at
most `maxAlloc - hchanSize` bytes), `Convert` starts a stage of which every run
(a) has emitted, at each moment, a prefix of the conversions `ConvertBatch` of the
batches, in input order, (b) has emitted exactly the conversions of all the batches, in
order, once the reader has seen the output closed, (c) makes at most
`3 * len(batches) + 2` moves, and (d) when no batch holds a nil entry, can always move
until the reader has seen the output closed. -/
theorem Convert_emits_in_order (rc : MessageRowConverter) (ext : Externals)
    (ctx : context.Context) (batches : List (List (Option pulsarutils.ConsumerMessage)))
    (rt : Runtime) (bufferSize : Int) (hbuf : 0 ≤ bufferSize)
    (hmax : rt.elemSize * bufferSize.toNat ≤ rt.maxAlloc - rt.hchanSize) :
    ∃ s0, Convert rt ctx batches bufferSize rc = some s0 ∧
      ∀ (sched : List Action) (s : Stage), run ext s0 sched = some s →
        s.emitted.map some <+: batches.map (ConvertBatch rc ext ctx) ∧
        (s.sawClose = true → s.emitted.map some = batches.map (ConvertBatch rc ext ctx)) ∧
        sched.length ≤ 3 * batches.length + 2 ∧
        ((∀ b ∈ batches, nonNilBatch b) → s.sawClose = false →
          ∃ a t, step ext s a = some t) := by
  have hok : rt.chanSizeOk bufferSize = true := by
    simp only [Runtime.chanSizeOk, decide_eq_true_eq]
    exact ⟨hbuf, hmax⟩
  refine ⟨_, (by simp only [Convert, if_pos hok]; rfl), ?_⟩
  intro sched s hrun
  have hinv0 : StageInv rc ext ctx batches
      { ctx := ctx, converter := rc, msgs := batches, worker := .receiving,
        capacity := bufferSize.toNat, out := [], outClosed := false, emitted := [],
        sawClose := false } := ⟨rfl, rfl, by simp⟩
  have hinv := run_inv rc ext ctx batches sched _ s hinv0 hrun
  have hbud := run_budget ext sched _ s hrun
  obtain ⟨hpre, hall⟩ := StageInv_emitted rc ext ctx batches s hinv
  refine ⟨hpre, hall, ?_, ?_⟩
  · simp only [Stage.budget, List.length_nil] at hbud
    simp at hbud
    omega
  · intro hnn hs
    have hnp := run_noPanic ext sched _ s ⟨by simp, hnn⟩ hrun
    exact step_enabled rc ext ctx batches s hinv hnp hs

theorem Convert_emits_in_order_witness :
    ∃ s0 s1 s, Convert linuxAmd64 sampleCtx [sampleBatch, [], [some validMsg]] 1 sampleRc =
        some s0 ∧
      run sampleExt s0 [.receive, .sendBuffered, .receive] = some s1 ∧
      (∃ a t, step sampleExt s1 a = some t) ∧
      run sampleExt s0 [.receive, .sendBuffered, .receive, .read, .sendDirect, .receive,
        .sendBuffered, .close, .read, .readClosed] = some s ∧
      s.sawClose = true ∧
      s.emitted.map some =
        [sampleBatch, [], [some validMsg]].map (ConvertBatch sampleRc sampleExt sampleCtx) := by
  obtain ⟨s0, h0, hall⟩ := Convert_emits_in_order sampleRc sampleExt sampleCtx
    [sampleBatch, [], [some validMsg]] linuxAmd64 1 (by decide) (by decide)
  have hs0 := Option.some.inj h0
  subst hs0
  have h1 := hall [.receive, .sendBuffered, .receive] _ rfl
  have h2 := hall [.receive, .sendBuffered, .receive, .read, .sendDirect, .receive,
    .sendBuffered, .close, .read, .readClosed] _ rfl
  exact ⟨_, _, _, rfl, rfl, h1.2.2.2 (by decide) rfl, rfl, rfl, h2.2.1 rfl⟩

/-- C7, as stated, fails: the buffer size `1 << 62` is not negative, and on linux/amd64
`make` panics on it, so `Convert` starts no stage and nothing is emitted. -/
theorem Convert_panics_on_huge_bufferSize :
    (0 : Int) ≤ 2 ^ 62 ∧
      Convert linuxAmd64 sampleCtx [sampleBatch, [], [some validMsg]] (2 ^ 62) sampleRc = none := by
  refine ⟨by decide, ?_⟩
  have hno : linuxAmd64.chanSizeOk (2 ^ 62) = false := by decide
  rw [Convert, if_neg (by rw [hno]; decide)]

/-! ### Bounds, totality and determinism of `ConvertBatch` -/

/-- C8: `ConvertBatch` returns on a batch without nil entries, and every update it
returns has at most `len(batch)` storage rows. -/
theorem ConvertBatch_rows_le (rc : MessageRowConverter) (ext : Externals)
    (ctx : context.Context) (batch : List (Option pulsarutils.ConsumerMessage)) :
    (nonNilBatch batch → ∃ u, ConvertBatch rc ext ctx batch = some u) ∧
      ∀ u, ConvertBatch rc ext ctx batch = some u → u.Events.length ≤ batch.length := by
  refine ⟨fun h => ⟨_, ConvertBatch_eq rc ext ctx batch h⟩, fun u hu => ?_⟩
  obtain ⟨_, rfl⟩ := (ConvertBatch_some_iff rc ext ctx batch u).mp hu
  exact List.length_filterMap_le _ _

theorem ConvertBatch_rows_le_witness :
    nonNilBatch sampleBatch ∧
      ∃ u, ConvertBatch sampleRc sampleExt sampleCtx sampleBatch = some u ∧
        u.Events.length ≤ 3 :=
  have h := ConvertBatch_rows_le sampleRc sampleExt sampleCtx sampleBatch
  ⟨by decide, (h.1 (by decide)).elim fun u hu => ⟨u, hu, h.2 u hu⟩⟩

/-- With collaborators that meet their contracts (a decoder that returns a sequence or
an error, a compressor that is present), `ConvertBatch` returns a `BatchUpdate` on
every batch whose entries and messages are all non-nil: the store `messageIds[i]` is
in range. -/
theorem ConvertBatch_never_aborts (rc : MessageRowConverter) (ext : Externals)
    (ctx : context.Context) (batch : List (Option pulsarutils.ConsumerMessage))
    (hnn : ∀ msg ∈ batch, ∃ m p, msg = some m ∧ m.Message = some p) :
    ∃ u, ConvertBatch rc ext ctx batch = some u := by
  refine ⟨_, ConvertBatch_eq rc ext ctx batch ?_⟩
  intro msg hmsg
  obtain ⟨m, p, rfl, hp⟩ := hnn msg hmsg
  simp [ackHandle, hp]

theorem ConvertBatch_never_aborts_witness :
    ∃ u, ConvertBatch failingRc failingMarshalExt sampleCtx
      [some validMsg, some noIndexMsg, some undecodableMsg, some nonControlMsg] = some u :=
  ConvertBatch_never_aborts failingRc failingMarshalExt sampleCtx
    [some validMsg, some noIndexMsg, some undecodableMsg, some nonControlMsg]
    (by
      intro msg hmsg
      simp only [List.mem_cons, List.mem_singleton, List.not_mem_nil, or_false] at hmsg
      rcases hmsg with rfl | rfl | rfl | rfl
      · exact ⟨_, _, rfl, rfl⟩
      · exact ⟨_, _, rfl, rfl⟩
      · exact ⟨_, _, rfl, rfl⟩
      · exact ⟨_, _, rfl, rfl⟩)

theorem loopBody_congr (rc1 rc2 : MessageRowConverter) (ext1 ext2 : Externals)
    (ctx : context.Context)
    (hcontrol : ∀ p, ext1.IsControlMessage p = ext2.IsControlMessage p)
    (hdecode : ∀ b, ext1.UnmarshalEventSequence ctx b = ext2.UnmarshalEventSequence ctx b)
    (hmarshal : ∀ d, ext1.Marshal d = ext2.Marshal d)
    (hcompress : ∀ b, rc1.compressor.Compress b = rc2.compressor.Compress b)
    (i : Nat) (msg : Option pulsarutils.ConsumerMessage) (st : LoopState) :
    loopBody rc1 ext1 ctx i msg st = loopBody rc2 ext2 ctx i msg st := by
  simp only [loopBody, hcontrol, hdecode, hmarshal, hcompress]

theorem loopFrom_congr (rc1 rc2 : MessageRowConverter) (ext1 ext2 : Externals)
    (ctx : context.Context)
    (hcontrol : ∀ p, ext1.IsControlMessage p = ext2.IsControlMessage p)
    (hdecode : ∀ b, ext1.UnmarshalEventSequence ctx b = ext2.UnmarshalEventSequence ctx b)
    (hmarshal : ∀ d, ext1.Marshal d = ext2.Marshal d)
    (hcompress : ∀ b, rc1.compressor.Compress b = rc2.compressor.Compress b)
    (rest : List (Option pulsarutils.ConsumerMessage)) :
    ∀ (i : Nat) (st : LoopState),
      loopFrom rc1 ext1 ctx i rest st = loopFrom rc2 ext2 ctx i rest st := by
  induction rest with
  | nil => intro i st; rfl
  | cons msg rest ih =>
    intro i st
    rw [loopFrom, loopFrom,
      loopBody_congr rc1 rc2 ext1 ext2 ctx hcontrol hdecode hmarshal hcompress i msg st]
    cases loopBody rc2 ext2 ctx i msg st with
    | none => rfl
    | some st1 => exact ih (i + 1) st1

/-- The result of `ConvertBatch` is settled by the answers of its collaborators on the
inputs it asks them: collaborators that answer alike give the same result. -/
theorem ConvertBatch_deterministic (rc1 rc2 : MessageRowConverter) (ext1 ext2 : Externals)
    (ctx : context.Context) (batch : List (Option pulsarutils.ConsumerMessage))
    (hcontrol : ∀ p, ext1.IsControlMessage p = ext2.IsControlMessage p)
    (hdecode : ∀ b, ext1.UnmarshalEventSequence ctx b = ext2.UnmarshalEventSequence ctx b)
    (hmarshal : ∀ d, ext1.Marshal d = ext2.Marshal d)
    (hcompress : ∀ b, rc1.compressor.Compress b = rc2.compressor.Compress b) :
    ConvertBatch rc1 ext1 ctx batch = ConvertBatch rc2 ext2 ctx batch := by
  simp only [ConvertBatch,
    loopFrom_congr rc1 rc2 ext1 ext2 ctx hcontrol hdecode hmarshal hcompress batch]

theorem ConvertBatch_deterministic_witness :
    ConvertBatch sampleRc sampleExt sampleCtx sampleBatch =
      ConvertBatch { compressor := { Compress := fun b => (b.length :: b, none) } }
        { IsControlMessage := fun p => p.Properties.lookup "type" == some "control",
          UnmarshalEventSequence := sampleUnmarshal,
          Marshal := sampleMarshal } sampleCtx sampleBatch :=
  ConvertBatch_deterministic sampleRc _ sampleExt _ sampleCtx sampleBatch
    (fun _ => rfl) (fun _ => rfl) (fun _ => rfl) (fun _ => rfl)

/-! ### Cancellation -/

theorem ConvertBatch_none (rc : MessageRowConverter) (ext : Externals) (ctx : context.Context)
    (batch : List (Option pulsarutils.ConsumerMessage)) (h : ¬ nonNilBatch batch) :
    ConvertBatch rc ext ctx batch = none := by
  cases hc : ConvertBatch rc ext ctx batch with
  | none => rfl
  | some u => exact absurd ((ConvertBatch_some_iff rc ext ctx batch u).mp hc).1 h

theorem ConvertBatch_messageIds_ctx (rc : MessageRowConverter) (ext : Externals)
    (ctx1 ctx2 : context.Context) (batch : List (Option pulsarutils.ConsumerMessage)) :
    (ConvertBatch rc ext ctx1 batch).map (fun u => u.MessageIds) =
      (ConvertBatch rc ext ctx2 batch).map (fun u => u.MessageIds) := by
  by_cases h : nonNilBatch batch
  · rw [ConvertBatch_eq rc ext ctx1 batch h, ConvertBatch_eq rc ext ctx2 batch h]
    rfl
  · rw [ConvertBatch_none rc ext ctx1 batch h, ConvertBatch_none rc ext ctx2 batch h]

theorem ConvertBatch_congr_ctx (rc : MessageRowConverter) (ext : Externals)
    (ctx1 ctx2 : context.Context)
    (hdecode : ∀ payload,
      ext.UnmarshalEventSequence ctx1 payload = ext.UnmarshalEventSequence ctx2 payload)
    (batch : List (Option pulsarutils.ConsumerMessage)) :
    ConvertBatch rc ext ctx1 batch = ConvertBatch rc ext ctx2 batch := by
  by_cases h : nonNilBatch batch
  · rw [ConvertBatch_eq rc ext ctx1 batch h, ConvertBatch_eq rc ext ctx2 batch h]
    have hrow : rowOf rc ext ctx1 = rowOf rc ext ctx2 := by
      funext msg
      cases msg with
      | none => rfl
      | some m =>
        cases hm : m.Message with
        | none => simp [rowOf, hm]
        | some p => simp [rowOf, hm, decodedSequence, hdecode]
    rw [hrow]
  · rw [ConvertBatch_none rc ext ctx1 batch h, ConvertBatch_none rc ext ctx2 batch h]

theorem emitted_messageIds_eq (rc : MessageRowConverter) (ext : Externals)
    (ctx1 ctx2 : context.Context) (batches : List (List (Option pulsarutils.ConsumerMessage)))
    (e1 e2 : List model.BatchUpdate)
    (h1 : e1.map some = batches.map (ConvertBatch rc ext ctx1))
    (h2 : e2.map some = batches.map (ConvertBatch rc ext ctx2)) :
    e1.map (fun u => u.MessageIds) = e2.map (fun u => u.MessageIds) := by
  have k1 := congrArg (List.map (Option.map fun u : model.BatchUpdate => u.MessageIds)) h1
  have k2 := congrArg (List.map (Option.map fun u : model.BatchUpdate => u.MessageIds)) h2
  simp only [List.map_map] at k1 k2
  have hfun : (Option.map (fun u : model.BatchUpdate => u.MessageIds)) ∘ ConvertBatch rc ext ctx1 =
      (Option.map (fun u : model.BatchUpdate => u.MessageIds)) ∘ ConvertBatch rc ext ctx2 := by
    funext b
    exact ConvertBatch_messageIds_ctx rc ext ctx1 ctx2 b
  rw [hfun, ← k2] at k1
  have k3 : List.map some (e1.map fun u => u.MessageIds) =
      List.map some (e2.map fun u => u.MessageIds) := by
    simpa [List.map_map, Function.comp_def] using k1
  exact (List.map_injective_iff.mpr (Option.some_injective _)) k3

theorem Convert_some (rt : Runtime) (ctx : context.Context)
    (batches : List (List (Option pulsarutils.ConsumerMessage))) (bufferSize : Int)
    (rc : MessageRowConverter) (hbuf : 0 ≤ bufferSize)
    (hmax : rt.elemSize * bufferSize.toNat ≤ rt.maxAlloc - rt.hchanSize) :
    Convert rt ctx batches bufferSize rc =
      some { ctx := ctx, converter := rc, msgs := batches, worker := .receiving,
             capacity := bufferSize.toNat, out := [], outClosed := false, emitted := [],
             sawClose := false } := by
  have hok : rt.chanSizeOk bufferSize = true := by
    simp only [Runtime.chanSizeOk, decide_eq_true_eq]
    exact ⟨hbuf, hmax⟩
  simp only [Convert, if_pos hok]

theorem Convert_inv (rc : MessageRowConverter) (ext : Externals) (ctx : context.Context)
    (batches : List (List (Option pulsarutils.ConsumerMessage))) (rt : Runtime)
    (bufferSize : Int) (s0 : Stage) (h : Convert rt ctx batches bufferSize rc = some s0) :
    StageInv rc ext ctx batches s0 ∧ s0.worker ≠ .panicked ∧ s0.msgs = batches := by
  unfold Convert at h
  split at h
  · cases h
    exact ⟨⟨rfl, rfl, by simp⟩, by simp, rfl⟩
  · cases h

/-- C11: for every list of batches, any two contexts `ctx1`, `ctx2` (cancelled or not)
passed to `Convert` and a buffer size that `make` accepts (not negative, a buffer of at
most `maxAlloc - hchanSize` bytes), both stages start; two runs that have seen the
output closed
have emitted the same number of updates, with the same ack handles one by one, and
the same updates if decoding answers the same under both contexts; while the close
has not been seen either stage can still move (no batch holding a nil entry); and a
context under which every payload decodes as under the other gives the same
`ConvertBatch` result on every batch. -/
theorem Convert_cancellation (rc : MessageRowConverter) (ext : Externals)
    (ctx1 ctx2 : context.Context) (batches : List (List (Option pulsarutils.ConsumerMessage)))
    (rt : Runtime) (bufferSize : Int) (hbuf : 0 ≤ bufferSize)
    (hmax : rt.elemSize * bufferSize.toNat ≤ rt.maxAlloc - rt.hchanSize) :
    ∃ s1 s2, Convert rt ctx1 batches bufferSize rc = some s1 ∧
      Convert rt ctx2 batches bufferSize rc = some s2 ∧
      (∀ (sched1 sched2 : List Action) (t1 t2 : Stage),
        run ext s1 sched1 = some t1 → run ext s2 sched2 = some t2 →
        t1.sawClose = true → t2.sawClose = true →
          t1.emitted.length = t2.emitted.length ∧
          t1.emitted.map (fun u => u.MessageIds) = t2.emitted.map (fun u => u.MessageIds) ∧
          ((∀ payload, ext.UnmarshalEventSequence ctx1 payload =
              ext.UnmarshalEventSequence ctx2 payload) → t1.emitted = t2.emitted)) ∧
      ((∀ b ∈ batches, nonNilBatch b) → ∀ (sched : List Action) (t : Stage),
        run ext s1 sched = some t ∨ run ext s2 sched = some t → t.sawClose = false →
          ∃ a t2, step ext t a = some t2) ∧
      ((∀ payload, ext.UnmarshalEventSequence ctx1 payload =
          ext.UnmarshalEventSequence ctx2 payload) →
        ∀ batch, ConvertBatch rc ext ctx1 batch = ConvertBatch rc ext ctx2 batch) := by
  refine ⟨_, _, Convert_some rt ctx1 batches bufferSize rc hbuf hmax,
    Convert_some rt ctx2 batches bufferSize rc hbuf hmax, ?_, ?_, ?_⟩
  · intro sched1 sched2 t1 t2 hr1 hr2 hc1 hc2
    have i1 := run_inv rc ext ctx1 batches sched1 _ t1
      (Convert_inv rc ext ctx1 batches rt bufferSize _
        (Convert_some rt ctx1 batches bufferSize rc hbuf hmax)).1 hr1
    have i2 := run_inv rc ext ctx2 batches sched2 _ t2
      (Convert_inv rc ext ctx2 batches rt bufferSize _
        (Convert_some rt ctx2 batches bufferSize rc hbuf hmax)).1 hr2
    have e1 := (StageInv_emitted rc ext ctx1 batches t1 i1).2 hc1
    have e2 := (StageInv_emitted rc ext ctx2 batches t2 i2).2 hc2
    have hids := emitted_messageIds_eq rc ext ctx1 ctx2 batches t1.emitted t2.emitted e1 e2
    refine ⟨?_, hids, ?_⟩
    · simpa using congrArg List.length hids
    · intro hdecode
      have hfun : ConvertBatch rc ext ctx1 = ConvertBatch rc ext ctx2 := by
        funext b
        exact ConvertBatch_congr_ctx rc ext ctx1 ctx2 hdecode b
      rw [hfun, ← e2] at e1
      exact (List.map_injective_iff.mpr (Option.some_injective _)) e1
  · intro hnn sched t hrun hs
    rcases hrun with hrun | hrun
    · have hi := Convert_inv rc ext ctx1 batches rt bufferSize _
        (Convert_some rt ctx1 batches bufferSize rc hbuf hmax)
      exact step_enabled rc ext ctx1 batches t (run_inv rc ext ctx1 batches sched _ t hi.1 hrun)
        (run_noPanic ext sched _ t ⟨hi.2.1, hnn⟩ hrun) hs
    · have hi := Convert_inv rc ext ctx2 batches rt bufferSize _
        (Convert_some rt ctx2 batches bufferSize rc hbuf hmax)
      exact step_enabled rc ext ctx2 batches t (run_inv rc ext ctx2 batches sched _ t hi.1 hrun)
        (run_noPanic ext sched _ t ⟨hi.2.1, hnn⟩ hrun) hs
  · intro hdecode batch
    exact ConvertBatch_congr_ctx rc ext ctx1 ctx2 hdecode batch

theorem Convert_cancellation_witness :
    ∃ s1 s2 t1 t2,
      Convert linuxAmd64 sampleCtx [sampleBatch, [some validMsg]] 0 sampleRc = some s1 ∧
      Convert linuxAmd64 cancelledCtx [sampleBatch, [some validMsg]] 0 sampleRc = some s2 ∧
      run cancelAwareExt s1
        [.receive, .sendDirect, .receive, .sendDirect, .close, .readClosed] = some t1 ∧
      run cancelAwareExt s2
        [.receive, .sendDirect, .receive, .sendDirect, .close, .readClosed] = some t2 ∧
      t1.emitted.map (fun u => u.Events.length) = [1, 1] ∧
      t2.emitted.map (fun u => u.Events.length) = [0, 0] ∧
      t1.emitted.length = t2.emitted.length ∧
      t1.emitted.map (fun u => u.MessageIds) = t2.emitted.map (fun u => u.MessageIds) := by
  obtain ⟨s1, s2, h1, h2, hall, _, _⟩ := Convert_cancellation sampleRc cancelAwareExt sampleCtx
    cancelledCtx [sampleBatch, [some validMsg]] linuxAmd64 0 (by decide) (by decide)
  have e1 := Option.some.inj h1
  have e2 := Option.some.inj h2
  subst e1 e2
  have h := hall [.receive, .sendDirect, .receive, .sendDirect, .close, .readClosed]
    [.receive, .sendDirect, .receive, .sendDirect, .close, .readClosed] _ _ rfl rfl rfl rfl
  exact ⟨_, _, _, _, rfl, rfl, rfl, rfl, rfl, rfl, h.1, h.2.1⟩

/-! ### Rows follow the usable messages -/

theorem rowOf_key (rc : MessageRowConverter) (ext : Externals) (ctx : context.Context)
    (msg : Option pulsarutils.ConsumerMessage) :
    (rowOf rc ext ctx msg).map (fun r => (r.Queue, r.Jobset)) =
      (usableSequence ext ctx msg).map (fun es => (es.Queue, es.JobSetName)) := by
  cases msg with
  | none => rfl
  | some m =>
    cases hm : m.Message with
    | none => simp [rowOf, usableSequence, hm]
    | some p =>
      simp only [rowOf, usableSequence, hm]
      cases decodedSequence ext ctx p with
      | none => rfl
      | some es => rfl

theorem rows_keys (rc : MessageRowConverter) (ext : Externals) (ctx : context.Context)
    (batch : List (Option pulsarutils.ConsumerMessage)) :
    (batch.filterMap (rowOf rc ext ctx)).map (fun r => (r.Queue, r.Jobset)) =
      (batch.filterMap (usableSequence ext ctx)).map (fun es => (es.Queue, es.JobSetName)) := by
  induction batch with
  | nil => rfl
  | cons msg rest ih =>
    have hk := rowOf_key rc ext ctx msg
    cases hr : rowOf rc ext ctx msg with
    | none =>
      cases hu : usableSequence ext ctx msg with
      | none => simpa [List.filterMap_cons, hr, hu] using ih
      | some es => simp [hr, hu] at hk
    | some r =>
      cases hu : usableSequence ext ctx msg with
      | none => simp [hr, hu] at hk
      | some es =>
        simp only [hr, hu, Option.map_some', Option.some.injEq] at hk
        simp only [List.filterMap_cons, hr, hu, List.map_cons, hk, ih]

/-- C13: for every batch without nil entries the storage rows of `ConvertBatch`
correspond, one per message and in input order, to the messages that are control
messages, have an index and decode successfully: as many rows as such messages, the
`j`-th row keyed by the decoded queue and job-set of the `j`-th such message. And for
a batch of a valid message, a non-control message and an undecodable message this
gives 3 ack handles and 1 row, keyed by the first message's queue and job-set. -/
theorem ConvertBatch_rows_in_order (rc : MessageRowConverter) (ext : Externals)
    (ctx : context.Context) :
    (∀ batch : List (Option pulsarutils.ConsumerMessage), nonNilBatch batch →
      ∃ u, ConvertBatch rc ext ctx batch = some u ∧
        u.Events.length = (batch.filterMap (usableSequence ext ctx)).length ∧
        u.Events.map (fun r => (r.Queue, r.Jobset)) =
          (batch.filterMap (usableSequence ext ctx)).map
            (fun es => (es.Queue, es.JobSetName))) ∧
    (∀ (m1 m2 m3 : pulsarutils.ConsumerMessage) (p1 p2 p3 : pulsar.Message)
        (es : armadaevents.EventSequence) (e : GoError),
      m1.Message = some p1 → m2.Message = some p2 → m3.Message = some p3 →
      ext.IsControlMessage p1 = true → p1.Index.isSome = true →
      ext.UnmarshalEventSequence ctx p1.Payload = .ok es →
      ext.IsControlMessage p2 = false →
      ext.UnmarshalEventSequence ctx p3.Payload = .error e →
      ∃ u, ConvertBatch rc ext ctx [some m1, some m2, some m3] = some u ∧
        u.MessageIds.length = 3 ∧ u.Events.length = 1 ∧
        u.Events.map (fun r => (r.Queue, r.Jobset)) = [(es.Queue, es.JobSetName)]) := by
  constructor
  · intro batch hnn
    refine ⟨_, ConvertBatch_eq rc ext ctx batch hnn, ?_, rows_keys rc ext ctx batch⟩
    have h := congrArg List.length (rows_keys rc ext ctx batch)
    simpa using h
  · intro m1 m2 m3 p1 p2 p3 es e h1 h2 h3 hc1 hx1 hu1 hc2 hu3
    have hnn : nonNilBatch [some m1, some m2, some m3] := by
      intro msg hmsg
      simp only [List.mem_cons, List.mem_singleton, List.not_mem_nil, or_false] at hmsg
      rcases hmsg with rfl | rfl | rfl
      · simp [ackHandle, h1]
      · simp [ackHandle, h2]
      · simp [ackHandle, h3]
    have r1 : rowOf rc ext ctx (some m1) = some (rowFor rc ext p1 es) := by
      simp [rowOf, h1, decodedSequence, hc1, hx1, hu1]
    have r2 : rowOf rc ext ctx (some m2) = none := by
      simp [rowOf, h2, decodedSequence, hc2]
    have r3 : rowOf rc ext ctx (some m3) = none := by
      simp [rowOf, h3, decodedSequence, hu3]
    refine ⟨_, ConvertBatch_eq rc ext ctx _ hnn, ?_, ?_, ?_⟩
    · simp
    · simp [List.filterMap_cons, r1, r2, r3]
    · simp [List.filterMap_cons, r1, r2, r3, rowFor]

theorem ConvertBatch_rows_in_order_witness :
    (∃ u, ConvertBatch sampleRc sampleExt sampleCtx
        [some noIndexMsg, some validMsg, some nonControlMsg, some validMsg] = some u ∧
      u.Events.length = 2 ∧
      u.Events.map (fun r => (r.Queue, r.Jobset)) =
        [("queue-a", "jobset-1"), ("queue-a", "jobset-1")]) ∧
    (∃ u, ConvertBatch sampleRc sampleExt sampleCtx sampleBatch = some u ∧
      u.MessageIds.length = 3 ∧ u.Events.length = 1 ∧
      u.Events.map (fun r => (r.Queue, r.Jobset)) = [("queue-a", "jobset-1")]) :=
  have h := ConvertBatch_rows_in_order sampleRc sampleExt sampleCtx
  ⟨h.1 [some noIndexMsg, some validMsg, some nonControlMsg, some validMsg] (by decide),
   h.2 validMsg nonControlMsg undecodableMsg _ _ _
     { Queue := "queue-a", JobSetName := "jobset-1",
       Events := [{ Created := some { unixNano := 5, loc := ⟨"Local"⟩ }, Event := 7 },
                  { Created := none, Event := 9 }] }
     "proto: cannot parse" rfl rfl rfl (by decide) rfl rfl (by decide) rfl⟩

/-! ### `ConvertBatch` with its collaborators as Go types them -/

namespace raw

theorem fillCreated_ofSequence (t : time.Time) (events : List armadaevents.EventSequence_Event) :
    fillCreated t (events.map some) = some (ingestion.fillCreated t events) := by
  induction events with
  | nil => rfl
  | cons e rest ih =>
    simp only [List.map_cons, fillCreated, ih]
    simp [ingestion.fillCreated]

theorem loopBody_world {σ : Type} (rc : Option (MessageRowConverter σ)) (ext : Externals σ)
    (ctx : context.Context)
    (hdecode : ∀ b w1 w2,
      (ext.UnmarshalEventSequence ctx b w1).1 = (ext.UnmarshalEventSequence ctx b w2).1)
    (hmarshal : ∀ d w1 w2, (ext.Marshal d w1).1.1 = (ext.Marshal d w2).1.1)
    (hcompress : ∀ r c, rc = some r → r.compressor = some c →
      ∀ b w1 w2, (c.Compress b w1).1.1 = (c.Compress b w2).1.1)
    (i : Nat) (msg : Option pulsarutils.ConsumerMessage) (st : LoopState) (w1 w2 : σ) :
    (loopBody rc ext ctx i msg st w1).map Prod.fst =
      (loopBody rc ext ctx i msg st w2).map Prod.fst := by
  cases msg with
  | none => rfl
  | some m =>
    cases hm : m.Message with
    | none => simp [loopBody, hm]
    | some p =>
      cases hs : sliceSet st.messageIds i (some { MessageId := p.ID, ConsumerId := m.ConsumerId }) with
      | none => simp [loopBody, hm, hs]
      | some ids =>
        simp only [loopBody, hm, hs]
        by_cases hc : (!ext.IsControlMessage p) = true
        · simp [hc]
        · by_cases hx : p.Index.isNone = true
          · simp [hc, hx]
          · simp only [hc, hx, if_false]
            have hd := hdecode p.Payload w1 w2
            rw [← hd]
            cases herr : (ext.UnmarshalEventSequence ctx p.Payload w1).1.2 with
            | some e => simp [herr]
            | none =>
              cases hes : (ext.UnmarshalEventSequence ctx p.Payload w1).1.1 with
              | none => simp [herr, hes]
              | some es =>
                cases hf : fillCreated p.PublishTime es.Events with
                | none => simp [herr, hes, hf]
                | some events =>
                  cases rc with
                  | none => simp [herr, hes, hf]
                  | some r =>
                    cases hcomp : r.compressor with
                    | none => simp [herr, hes, hf, hcomp]
                    | some c =>
                      simp only [herr, hes, hf, hcomp, Option.map_some', Option.some.injEq,
                        Bool.false_eq_true, if_false]
                      rw [hmarshal _ (ext.UnmarshalEventSequence ctx p.Payload w1).2
                        (ext.UnmarshalEventSequence ctx p.Payload w2).2]
                      rw [hcompress r c rfl hcomp
                        (ext.Marshal { EventSequence :=
                            { Queue := "", JobSetName := "", Events := events } }
                          (ext.UnmarshalEventSequence ctx p.Payload w2).2).1.1
                        (ext.Marshal { EventSequence :=
                            { Queue := "", JobSetName := "", Events := events } }
                          (ext.UnmarshalEventSequence ctx p.Payload w1).2).2
                        (ext.Marshal { EventSequence :=
                            { Queue := "", JobSetName := "", Events := events } }
                          (ext.UnmarshalEventSequence ctx p.Payload w2).2).2]

theorem loopFrom_world {σ : Type} (rc : Option (MessageRowConverter σ)) (ext : Externals σ)
    (ctx : context.Context)
    (hdecode : ∀ b w1 w2,
      (ext.UnmarshalEventSequence ctx b w1).1 = (ext.UnmarshalEventSequence ctx b w2).1)
    (hmarshal : ∀ d w1 w2, (ext.Marshal d w1).1.1 = (ext.Marshal d w2).1.1)
    (hcompress : ∀ r c, rc = some r → r.compressor = some c →
      ∀ b w1 w2, (c.Compress b w1).1.1 = (c.Compress b w2).1.1)
    (rest : List (Option pulsarutils.ConsumerMessage)) :
    ∀ (i : Nat) (st : LoopState) (w1 w2 : σ),
      (loopFrom rc ext ctx i rest st w1).map Prod.fst =
        (loopFrom rc ext ctx i rest st w2).map Prod.fst := by
  induction rest with
  | nil => intro i st w1 w2; rfl
  | cons msg rest ih =>
    intro i st w1 w2
    have hb := loopBody_world rc ext ctx hdecode hmarshal hcompress i msg st w1 w2
    simp only [loopFrom]
    cases h1 : loopBody rc ext ctx i msg st w1 with
    | none =>
      rw [h1] at hb
      have h2 : loopBody rc ext ctx i msg st w2 = none := by
        simpa using hb.symm
      simp [h2]
    | some r1 =>
      cases h2 : loopBody rc ext ctx i msg st w2 with
      | none => rw [h1, h2] at hb; simp at hb
      | some r2 =>
        rw [h1, h2] at hb
        obtain ⟨st1, v1⟩ := r1
        obtain ⟨st2, v2⟩ := r2
        simp only [Option.map_some', Option.some.injEq] at hb
        subst hb
        exact ih (i + 1) st1 v1 v2

theorem fillCreated_some (t : time.Time) (events : List (Option armadaevents.EventSequence_Event))
    (h : ∀ e ∈ events, e ≠ none) : ∃ filled, fillCreated t events = some filled := by
  induction events with
  | nil => exact ⟨[], rfl⟩
  | cons e rest ih =>
    obtain ⟨filled, hf⟩ := ih fun x hx => h x (List.mem_cons_of_mem _ hx)
    cases e with
    | none => exact absurd rfl (h none (List.mem_cons_self _ _))
    | some ev =>
      simp only [fillCreated, hf]
      exact ⟨_, rfl⟩

theorem loopBody_some {σ : Type} (c : Compressor σ) (ext : Externals σ)
    (ctx : context.Context)
    (hdecode : ∀ b w, (ext.UnmarshalEventSequence ctx b w).1.2 = none →
      ∃ es, (ext.UnmarshalEventSequence ctx b w).1.1 = some es ∧ ∀ e ∈ es.Events, e ≠ none)
    (i : Nat) (msg : Option pulsarutils.ConsumerMessage) (st : LoopState) (w : σ)
    (hmsg : (ackHandle msg).isSome = true) (hi : i < st.messageIds.length) :
    ∃ st2 w2, loopBody (some { compressor := some c }) ext ctx i msg st w = some (st2, w2) ∧
      st2.messageIds.length = st.messageIds.length := by
  cases msg with
  | none => simp [ackHandle] at hmsg
  | some m =>
    cases hm : m.Message with
    | none => simp [ackHandle, hm] at hmsg
    | some p =>
      simp only [loopBody, hm, sliceSet, hi, if_true]
      by_cases hc : (!ext.IsControlMessage p) = true
      · rw [if_pos hc]
        exact ⟨_, _, rfl, by simp⟩
      · rw [if_neg hc]
        by_cases hx : p.Index.isNone = true
        · rw [if_pos hx]
          exact ⟨_, _, rfl, by simp⟩
        · rw [if_neg hx]
          cases herr : (ext.UnmarshalEventSequence ctx p.Payload w).1.2 with
          | some e => exact ⟨_, _, rfl, by simp⟩
          | none =>
            obtain ⟨es, hes, hev⟩ := hdecode p.Payload w herr
            obtain ⟨filled, hf⟩ := fillCreated_some p.PublishTime es.Events hev
            simp only [hes, hf]
            exact ⟨_, _, rfl, by simp⟩

theorem loopFrom_some {σ : Type} (c : Compressor σ) (ext : Externals σ)
    (ctx : context.Context)
    (hdecode : ∀ b w, (ext.UnmarshalEventSequence ctx b w).1.2 = none →
      ∃ es, (ext.UnmarshalEventSequence ctx b w).1.1 = some es ∧ ∀ e ∈ es.Events, e ≠ none)
    (rest : List (Option pulsarutils.ConsumerMessage)) :
    ∀ (i : Nat) (st : LoopState) (w : σ), nonNilBatch rest →
      i + rest.length ≤ st.messageIds.length →
      ∃ st2 w2, loopFrom (some { compressor := some c }) ext ctx i rest st w = some (st2, w2) := by
  induction rest with
  | nil => intro i st w _ _; exact ⟨st, w, rfl⟩
  | cons msg rest ih =>
    intro i st w hnn hlen
    simp only [List.length_cons] at hlen
    obtain ⟨st1, w1, hb, hl⟩ := loopBody_some c ext ctx hdecode i msg st w
      (hnn msg (List.mem_cons_self _ _)) (by omega)
    obtain ⟨st2, w2, h2⟩ := ih (i + 1) st1 w1
      (fun x hx => hnn x (List.mem_cons_of_mem _ hx)) (by omega)
    exact ⟨st2, w2, by simp only [loopFrom, hb, h2]⟩

theorem loopBody_tracks {σ : Type} (c : Compressor σ) (rext : Externals σ)
    (rc : ingestion.MessageRowConverter) (ext : ingestion.Externals) (ctx : context.Context)
    (hcontrol : ∀ p, rext.IsControlMessage p = ext.IsControlMessage p)
    (hdecode : ∀ b w, (rext.UnmarshalEventSequence ctx b w).1 =
      match ext.UnmarshalEventSequence ctx b with
      | .ok es => (some (ofSequence es), none)
      | .error e => (none, some e))
    (hmarshal : ∀ d w, (rext.Marshal d w).1.1 = (ext.Marshal d).1)
    (hcompress : ∀ b w, (c.Compress b w).1.1 = (rc.compressor.Compress b).1)
    (i : Nat) (msg : Option pulsarutils.ConsumerMessage) (st : LoopState) (w : σ) :
    (loopBody (some { compressor := some c }) rext ctx i msg st w).map Prod.fst =
      ingestion.loopBody rc ext ctx i msg st := by
  cases msg with
  | none => rfl
  | some m =>
    cases hm : m.Message with
    | none => simp [loopBody, ingestion.loopBody, hm]
    | some p =>
      cases hs : sliceSet st.messageIds i
          (some { MessageId := p.ID, ConsumerId := m.ConsumerId }) with
      | none => simp [loopBody, ingestion.loopBody, hm, hs]
      | some ids =>
        simp only [loopBody, ingestion.loopBody, hm, hs, hcontrol, Option.bind_eq_bind,
          Option.some_bind]
        cases hc : ext.IsControlMessage p with
        | false => simp
        | true =>
          cases hx : p.Index with
          | none => simp
          | some ix =>
            have hd := hdecode p.Payload w
            cases hu : ext.UnmarshalEventSequence ctx p.Payload with
            | error e =>
              rw [hu] at hd
              simp [hd]
            | ok es =>
              rw [hu] at hd
              simp [hd, ofSequence, fillCreated_ofSequence, hmarshal, hcompress]

theorem loopFrom_tracks {σ : Type} (c : Compressor σ) (rext : Externals σ)
    (rc : ingestion.MessageRowConverter) (ext : ingestion.Externals) (ctx : context.Context)
    (hcontrol : ∀ p, rext.IsControlMessage p = ext.IsControlMessage p)
    (hdecode : ∀ b w, (rext.UnmarshalEventSequence ctx b w).1 =
      match ext.UnmarshalEventSequence ctx b with
      | .ok es => (some (ofSequence es), none)
      | .error e => (none, some e))
    (hmarshal : ∀ d w, (rext.Marshal d w).1.1 = (ext.Marshal d).1)
    (hcompress : ∀ b w, (c.Compress b w).1.1 = (rc.compressor.Compress b).1)
    (rest : List (Option pulsarutils.ConsumerMessage)) :
    ∀ (i : Nat) (st : LoopState) (w : σ),
      (loopFrom (some { compressor := some c }) rext ctx i rest st w).map Prod.fst =
        ingestion.loopFrom rc ext ctx i rest st := by
  induction rest with
  | nil => intro i st w; rfl
  | cons msg rest ih =>
    intro i st w
    have hb := loopBody_tracks c rext rc ext ctx hcontrol hdecode hmarshal hcompress i msg st w
    simp only [loopFrom, ingestion.loopFrom, ← hb]
    cases h1 : loopBody (some { compressor := some c }) rext ctx i msg st w with
    | none => rfl
    | some r1 =>
      obtain ⟨st1, w1⟩ := r1
      exact ih (i + 1) st1 w1

theorem ConvertBatch_tracks {σ : Type} (c : Compressor σ) (rext : Externals σ)
    (rc : ingestion.MessageRowConverter) (ext : ingestion.Externals) (ctx : context.Context)
    (hcontrol : ∀ p, rext.IsControlMessage p = ext.IsControlMessage p)
    (hdecode : ∀ b w, (rext.UnmarshalEventSequence ctx b w).1 =
      match ext.UnmarshalEventSequence ctx b with
      | .ok es => (some (ofSequence es), none)
      | .error e => (none, some e))
    (hmarshal : ∀ d w, (rext.Marshal d w).1.1 = (ext.Marshal d).1)
    (hcompress : ∀ b w, (c.Compress b w).1.1 = (rc.compressor.Compress b).1)
    (batch : List (Option pulsarutils.ConsumerMessage)) (w : σ) :
    (ConvertBatch (some { compressor := some c }) rext ctx batch w).map Prod.fst =
      ingestion.ConvertBatch rc ext ctx batch := by
  have h := loopFrom_tracks c rext rc ext ctx hcontrol hdecode hmarshal hcompress batch 0
    { messageIds := List.replicate batch.length none, events := [] } w
  simp only [ConvertBatch, ingestion.ConvertBatch, ← h]
  cases loopFrom (some { compressor := some c }) rext ctx 0 batch
      { messageIds := List.replicate batch.length none, events := [] } w with
  | none => rfl
  | some r => rfl

/-- C9, as stated, fails: on a batch of one non-nil, valid control message the decoder
outcome "nil sequence, nil error" makes `ConvertBatch` panic at `es.Events`, and so
does a decoded sequence that holds a nil event, at `event.Created`; a nil compressor
panics at `rc.compressor.Compress`. -/
theorem ConvertBatch_panics_on_decoder_outcome :
    (nilSequenceExt.UnmarshalEventSequence sampleCtx [1, 7, 9] 0).1 = (none, none) ∧
      ConvertBatch (some { compressor := some tickingCompressor }) nilSequenceExt sampleCtx
        [some validMsg] 0 = none ∧
      ConvertBatch (some { compressor := some tickingCompressor }) nilEventExt sampleCtx
        [some validMsg] 0 = none ∧
      ConvertBatch (some { compressor := none }) tickingExt sampleCtx [some validMsg] 0 = none := by
  refine ⟨rfl, by decide, by decide, by decide⟩

/-- C9, as amended: for every batch whose entries and messages are all non-nil, a
non-nil converter with a non-nil compressor, and a decoder that, whenever it returns a
nil error, returns a non-nil sequence without nil events, `ConvertBatch` returns a
`BatchUpdate` in every state of the world, whatever else the decoder, the serializer
and the compressor return or fail on. -/
theorem ConvertBatch_returns_under_contracts {σ : Type} (c : Compressor σ) (ext : Externals σ)
    (ctx : context.Context) (batch : List (Option pulsarutils.ConsumerMessage)) (w : σ)
    (hnn : ∀ msg ∈ batch, ∃ m p, msg = some m ∧ m.Message = some p)
    (hdecode : ∀ b v, (ext.UnmarshalEventSequence ctx b v).1.2 = none →
      ∃ es, (ext.UnmarshalEventSequence ctx b v).1.1 = some es ∧ ∀ e ∈ es.Events, e ≠ none) :
    ∃ u w2, ConvertBatch (some { compressor := some c }) ext ctx batch w = some (u, w2) := by
  have hnn2 : nonNilBatch batch := by
    intro msg hmsg
    obtain ⟨m, p, rfl, hp⟩ := hnn msg hmsg
    simp [ackHandle, hp]
  obtain ⟨st2, w2, h⟩ := loopFrom_some c ext ctx hdecode batch 0
    { messageIds := List.replicate batch.length none, events := [] } w hnn2 (by simp)
  simp only [ConvertBatch, h]
  exact ⟨_, w2, rfl⟩

theorem ConvertBatch_returns_under_contracts_witness :
    ∃ u w2, ConvertBatch (some { compressor := some failingCompressor }) allFailingExt
      sampleCtx [some validMsg, some undecodableMsg, some noIndexMsg, some nonControlMsg] 0 =
        some (u, w2) :=
  ConvertBatch_returns_under_contracts failingCompressor allFailingExt sampleCtx
    [some validMsg, some undecodableMsg, some noIndexMsg, some nonControlMsg] 0
    (by
      intro msg hmsg
      simp only [List.mem_cons, List.mem_singleton, List.not_mem_nil, or_false] at hmsg
      rcases hmsg with rfl | rfl | rfl | rfl
      · exact ⟨_, _, rfl, rfl⟩
      · exact ⟨_, _, rfl, rfl⟩
      · exact ⟨_, _, rfl, rfl⟩
      · exact ⟨_, _, rfl, rfl⟩)
    (by
      intro b v herr
      simp only [allFailingExt] at herr ⊢
      by_cases hb : b.length < 3
      · simp [hb] at herr
      · simp only [if_neg hb]
        exact ⟨_, rfl, by simp⟩)

/-- C10: with a decoder, a serializer and a compressor that are deterministic, that
is, whose answers to a call do not depend on the state of the world in which it is
made (the wall clock, what earlier calls left behind), two runs of `ConvertBatch` on
the same batch started in any two states of the world give the same update, ack handle
for ack handle and row for row, byte for byte (or both panic). And where the
collaborators answer as pure functions `rc`, `ext` do, the update is the one the
world-free `ingestion.ConvertBatch` computes from the batch, in which a missing created
time is the message's own publish time. -/
theorem ConvertBatch_world_independent {σ : Type} (rc : Option (MessageRowConverter σ))
    (ext : Externals σ) (ctx : context.Context)
    (batch : List (Option pulsarutils.ConsumerMessage))
    (hdecode : ∀ b w1 w2,
      (ext.UnmarshalEventSequence ctx b w1).1 = (ext.UnmarshalEventSequence ctx b w2).1)
    (hmarshal : ∀ d w1 w2, (ext.Marshal d w1).1.1 = (ext.Marshal d w2).1.1)
    (hcompress : ∀ r c, rc = some r → r.compressor = some c →
      ∀ b w1 w2, (c.Compress b w1).1.1 = (c.Compress b w2).1.1) :
    (∀ w1 w2 : σ, (ConvertBatch rc ext ctx batch w1).map Prod.fst =
        (ConvertBatch rc ext ctx batch w2).map Prod.fst) ∧
      ∀ (c : Compressor σ) (pureRc : ingestion.MessageRowConverter)
        (pureExt : ingestion.Externals),
        rc = some { compressor := some c } →
        (∀ p, ext.IsControlMessage p = pureExt.IsControlMessage p) →
        (∀ b w, (ext.UnmarshalEventSequence ctx b w).1 =
          match pureExt.UnmarshalEventSequence ctx b with
          | .ok es => (some (ofSequence es), none)
          | .error e => (none, some e)) →
        (∀ d w, (ext.Marshal d w).1.1 = (pureExt.Marshal d).1) →
        (∀ b w, (c.Compress b w).1.1 = (pureRc.compressor.Compress b).1) →
        ∀ w : σ, (ConvertBatch rc ext ctx batch w).map Prod.fst =
          ingestion.ConvertBatch pureRc pureExt ctx batch := by
  constructor
  · intro w1 w2
    have h := loopFrom_world rc ext ctx hdecode hmarshal hcompress batch 0
      { messageIds := List.replicate batch.length none, events := [] } w1 w2
    simp only [ConvertBatch]
    cases h1 : loopFrom rc ext ctx 0 batch
        { messageIds := List.replicate batch.length none, events := [] } w1 with
    | none =>
      rw [h1] at h
      have h2 : loopFrom rc ext ctx 0 batch
          { messageIds := List.replicate batch.length none, events := [] } w2 = none := by
        simpa using h.symm
      simp [h2]
    | some r1 =>
      cases h2 : loopFrom rc ext ctx 0 batch
          { messageIds := List.replicate batch.length none, events := [] } w2 with
      | none => rw [h1, h2] at h; simp at h
      | some r2 =>
        rw [h1, h2] at h
        simp only [Option.map_some', Option.some.injEq] at h
        simp [h]
  · intro c pureRc pureExt hrc hc hd hm hz w
    subst hrc
    exact ConvertBatch_tracks c ext pureRc pureExt ctx hc hd hm hz batch w

theorem ConvertBatch_world_independent_witness :
    (ConvertBatch (some { compressor := some tickingCompressor }) tickingExt sampleCtx
        sampleBatch 0).map Prod.fst =
      (ConvertBatch (some { compressor := some tickingCompressor }) tickingExt sampleCtx
        sampleBatch 1000).map Prod.fst ∧
    (ConvertBatch (some { compressor := some tickingCompressor }) tickingExt sampleCtx
        sampleBatch 0).map Prod.snd = some 4 ∧
    (ConvertBatch (some { compressor := some tickingCompressor }) tickingExt sampleCtx
        sampleBatch 1000).map Prod.snd = some 1004 ∧
    (ConvertBatch (some { compressor := some tickingCompressor }) tickingExt sampleCtx
        sampleBatch 1000).map Prod.fst =
      ingestion.ConvertBatch sampleRc sampleExt sampleCtx sampleBatch :=
  have h := ConvertBatch_world_independent (some { compressor := some tickingCompressor })
    tickingExt sampleCtx sampleBatch (fun _ _ _ => rfl) (fun _ _ _ => rfl)
    (fun r c hr hc => by
      have hr2 : r = { compressor := some tickingCompressor } := (Option.some.inj hr).symm
      subst hr2
      have hc2 : c = tickingCompressor := (Option.some.inj hc).symm
      subst hc2
      exact fun _ _ _ => rfl)
  ⟨h.1 0 1000, by decide, by decide,
    h.2 tickingCompressor sampleRc sampleExt rfl (fun _ => rfl)
      (fun b _ => by simp only [tickingExt, sampleExt])
      (fun _ _ => rfl) (fun _ _ => rfl) 1000⟩

/-- The hypotheses of determinism are needed: with a compressor that stamps its output
with the time of the call, two runs started at different times give different rows;
and the publish time does enter the result: the same batch with another publish time
gives another row. -/
theorem ConvertBatch_depends_on_clock_reading_compressor :
    (ConvertBatch (some { compressor := some stampingCompressor }) tickingExt sampleCtx
        [some validMsg] 0).map Prod.fst ≠
      (ConvertBatch (some { compressor := some stampingCompressor }) tickingExt sampleCtx
        [some validMsg] 1000).map Prod.fst ∧
    (ConvertBatch (some { compressor := some tickingCompressor }) tickingExt sampleCtx
        [some validMsg] 0).map Prod.fst ≠
      (ConvertBatch (some { compressor := some tickingCompressor }) tickingExt sampleCtx
        [some { validMsg with
                Message := some { ID := 11, Payload := [1, 7, 9],
                                  PublishTime := { unixNano := 2000, loc := ⟨"Local"⟩ },
                                  Index := some 0, Properties := [("type", "control")] } }]
        0).map Prod.fst := by
  refine ⟨by decide, by decide⟩

end raw

end ingestion

/-! ### The client connection -/

namespace strings

theorem HasPrefix_iff (s pre : String) :
    HasPrefix s pre = true ↔ ∃ rest : String, s = pre ++ rest := by
  simp only [HasPrefix, decide_eq_true_eq]
  constructor
  · rintro ⟨t, ht⟩
    exact ⟨⟨t⟩, String.ext (by simp [String.data_append, ht])⟩
  · rintro ⟨rest, rfl⟩
    exact ⟨rest.data, by simp [String.data_append]⟩

theorem Contains_iff (s substr : String) :
    Contains s substr = true ↔ ∃ before after : String, s = before ++ substr ++ after := by
  simp only [Contains, decide_eq_true_eq]
  constructor
  · rintro ⟨a, b, hab⟩
    exact ⟨⟨a⟩, ⟨b⟩, String.ext (by simp [String.data_append, ← hab])⟩
  · rintro ⟨before, after, rfl⟩
    exact ⟨before.data, after.data, by simp [String.data_append]⟩

end strings

namespace client

/-- C12: for a non-empty `ArmadaRestUrl`, when the request `ArmadaHealthCheck` issues
is answered by a response with status code `s`, the check returns `ok = true` exactly
when `200 <= s <= 399`, and a nil error in both cases. -/
theorem ArmadaHealthCheck_ok_iff (httpGet : String → Except GoError http.Response)
    (a : ApiConnectionDetails) (url : String) (resp : http.Response)
    (hne : a.ArmadaRestUrl ≠ "")
    (hreq : (ArmadaHealthCheck httpGet a).requests = [url])
    (hget : httpGet url = .ok resp) :
    ((ArmadaHealthCheck httpGet a).ok = true ↔
        200 ≤ resp.StatusCode ∧ resp.StatusCode ≤ 399) ∧
      (ArmadaHealthCheck httpGet a).err = none := by
  simp only [ArmadaHealthCheck, if_neg hne] at hreq ⊢
  generalize hE : (if (!strings.HasPrefix a.ArmadaRestUrl "http") = true
    then "http://" ++ a.ArmadaRestUrl else a.ArmadaRestUrl) ++ "/health" = E at hreq ⊢
  cases hg : httpGet E with
  | error e =>
    simp only [hg, List.cons.injEq, and_true] at hreq
    rw [← hreq, hg] at hget
    cases hget
  | ok r =>
    simp only [hg] at hreq ⊢
    have hurl : E = url := by
      split at hreq <;> simpa using hreq
    rw [← hurl, hg] at hget
    have hr : r = resp := by simpa using hget
    rw [hr]
    by_cases hs : (resp.StatusCode < 200 || resp.StatusCode > 399) = true
    · rw [if_pos hs]
      simp only [Bool.or_eq_true, decide_eq_true_eq] at hs
      refine ⟨⟨fun h => (by cases h), fun h => ?_⟩, rfl⟩
      omega
    · rw [if_neg hs]
      simp only [Bool.or_eq_true, decide_eq_true_eq, not_or, not_lt] at hs
      refine ⟨⟨fun _ => ⟨hs.1, (by omega)⟩, fun _ => rfl⟩, rfl⟩

theorem ArmadaHealthCheck_ok_iff_witness :
    ((ArmadaHealthCheck sampleGet
        { emptyConfig with ArmadaRestUrl := "https://armada.example.com" }).ok = true ↔
        (200 : Int) ≤ 503 ∧ (503 : Int) ≤ 399) ∧
      (ArmadaHealthCheck sampleGet
        { emptyConfig with ArmadaRestUrl := "https://armada.example.com" }).err = none :=
  ArmadaHealthCheck_ok_iff sampleGet
    { emptyConfig with ArmadaRestUrl := "https://armada.example.com" }
    "https://armada.example.com/health" { StatusCode := 503 } (by decide) (by decide) rfl

/-- C14: `perRpcCredentials` uses the first configured strategy in the order
BasicAuth, OpenIdAuth, OpenIdDeviceAuth, OpenIdPasswordAuth,
OpenIdClientCredentialsAuth, OpenIdKubernetesAuth, KerberosAuth, ExecAuth and
returns what that strategy returns, whatever later strategies are configured; with
no strategy configured it returns no credentials and no error. -/
theorem perRpcCredentials_priority (aext : AuthExternals) (config : ApiConnectionDetails) :
    perRpcCredentials aext config = perRpcCredentialsByPriority aext config ∧
      (∀ (strategy : Strategy) (earlier later : List Strategy),
        Strategy.priority = earlier ++ strategy :: later →
        strategy.configured config = true →
        (∀ e ∈ earlier, e.configured config = false) →
        perRpcCredentials aext config = strategy.use aext config) ∧
      ((∀ strategy : Strategy, strategy.configured config = false) →
        perRpcCredentials aext config = (none, none)) := by
  have heq : perRpcCredentials aext config = perRpcCredentialsByPriority aext config := by
    unfold perRpcCredentials perRpcCredentialsByPriority
    split_ifs <;>
      simp [Strategy.priority, List.find?_cons, Strategy.configured, Strategy.use, *]
  refine ⟨heq, ?_, ?_⟩
  · intro strategy earlier later hsplit hconf hearlier
    rw [heq, perRpcCredentialsByPriority, hsplit, List.find?_append]
    have h1 : List.find? (Strategy.configured config) earlier = none := by
      rw [List.find?_eq_none]
      intro e he
      simp [hearlier e he]
    simp [h1, List.find?_cons, hconf]
  · intro hnone
    rw [heq, perRpcCredentialsByPriority]
    have h1 : List.find? (Strategy.configured config) Strategy.priority = none := by
      rw [List.find?_eq_none]
      intro e _
      simp [hnone e]
    simp [h1]

theorem perRpcCredentials_priority_witness :
    perRpcCredentials sampleAuth
        { emptyConfig with
          OpenIdDeviceAuth := { ProviderUrl := "https://idp.example.com", rest := [] },
          KerberosAuth := { Enabled := true },
          ExecAuth := { Cmd := "get-token", rest := [] } } =
      (none, some "device flow failed") ∧
    perRpcCredentials sampleAuth emptyConfig = (none, none) :=
  have h1 := perRpcCredentials_priority sampleAuth
    { emptyConfig with
      OpenIdDeviceAuth := { ProviderUrl := "https://idp.example.com", rest := [] },
      KerberosAuth := { Enabled := true },
      ExecAuth := { Cmd := "get-token", rest := [] } }
  have h2 := perRpcCredentials_priority sampleAuth emptyConfig
  ⟨h1.2.1 .OpenIdDeviceAuth [.BasicAuth, .OpenIdAuth]
      [.OpenIdPasswordAuth, .OpenIdClientCredentialsAuth, .OpenIdKubernetesAuth,
       .KerberosAuth, .ExecAuth] rfl (by decide) (by decide),
   h2.2.2 (by intro strategy; cases strategy <;> decide)⟩

/-- C15: `transportCredentials` uses TLS exactly when `ForceNoTls` is false and
`ArmadaUrl` does not contain the substring `localhost`; in every other case, also
for a URL that has `localhost` inside a longer host name, it uses insecure
credentials. -/
theorem transportCredentials_tls_iff (config : ApiConnectionDetails) :
    (transportCredentials config = .WithTransportCredentials .clientTLS ↔
      config.ForceNoTls = false ∧
        ¬ ∃ before after : String, config.ArmadaUrl = before ++ "localhost" ++ after) ∧
    (transportCredentials config = .WithTransportCredentials .insecure ↔
      ¬ (config.ForceNoTls = false ∧
        ¬ ∃ before after : String, config.ArmadaUrl = before ++ "localhost" ++ after)) ∧
    transportCredentials { config with ArmadaUrl := "mylocalhost.example.com:443" } =
      .WithTransportCredentials .insecure := by
  have hc := strings.Contains_iff config.ArmadaUrl "localhost"
  refine ⟨?_, ?_, ?_⟩
  · unfold transportCredentials
    cases hf : config.ForceNoTls <;> cases hl : strings.Contains config.ArmadaUrl "localhost" <;>
      simp [← hc, hl]
  · unfold transportCredentials
    cases hf : config.ForceNoTls <;> cases hl : strings.Contains config.ArmadaUrl "localhost" <;>
      simp [← hc, hl]
  · have hl : strings.Contains "mylocalhost.example.com:443" "localhost" = true := by decide
    simp [transportCredentials, hl]

theorem transportCredentials_tls_iff_witness :
    transportCredentials { emptyConfig with ArmadaUrl := "armada.example.com:443" } =
        .WithTransportCredentials .clientTLS ∧
      transportCredentials { emptyConfig with ArmadaUrl := "localhost:50051" } =
        .WithTransportCredentials .insecure :=
  ⟨(transportCredentials_tls_iff
      { emptyConfig with ArmadaUrl := "armada.example.com:443" }).1.mpr
      ⟨rfl, by rw [← strings.Contains_iff]; decide⟩,
   (transportCredentials_tls_iff { emptyConfig with ArmadaUrl := "localhost:50051" }).2.1.mpr
      (fun h => h.2 ⟨"", ":50051", by decide⟩)⟩

/-- C16: with an empty `ArmadaRestUrl`, `ArmadaHealthCheck` returns `false` and an
error and issues no request; otherwise it issues exactly one request, to
`ArmadaRestUrl` followed by `/health` when `ArmadaRestUrl` starts with `http` and to
`http://` followed by `ArmadaRestUrl` and `/health` when it does not, and when that
request fails it returns `false` and an error. -/
theorem ArmadaHealthCheck_requests (httpGet : String → Except GoError http.Response)
    (a : ApiConnectionDetails) :
    (a.ArmadaRestUrl = "" →
      (ArmadaHealthCheck httpGet a).ok = false ∧ (ArmadaHealthCheck httpGet a).err ≠ none ∧
        (ArmadaHealthCheck httpGet a).requests = []) ∧
    (a.ArmadaRestUrl ≠ "" →
      ∃ url, (ArmadaHealthCheck httpGet a).requests = [url] ∧
        ((∃ rest : String, a.ArmadaRestUrl = "http" ++ rest) →
          url = a.ArmadaRestUrl ++ "/health") ∧
        ((¬ ∃ rest : String, a.ArmadaRestUrl = "http" ++ rest) →
          url = "http://" ++ a.ArmadaRestUrl ++ "/health") ∧
        (∀ e, httpGet url = .error e →
          (ArmadaHealthCheck httpGet a).ok = false ∧
            (ArmadaHealthCheck httpGet a).err ≠ none)) := by
  constructor
  · intro h
    simp [ArmadaHealthCheck, h]
  · intro hne
    have hp := strings.HasPrefix_iff a.ArmadaRestUrl "http"
    simp only [ArmadaHealthCheck, if_neg hne]
    generalize hE : (if (!strings.HasPrefix a.ArmadaRestUrl "http") = true
      then "http://" ++ a.ArmadaRestUrl else a.ArmadaRestUrl) ++ "/health" = E
    refine ⟨E, ?_, ?_, ?_, ?_⟩
    · cases hg : httpGet E with
      | error e => rfl
      | ok r => simp only []; split <;> rfl
    · intro hpre
      rw [← hE, hp.mpr hpre]
      rfl
    · intro hpre
      have hfalse : strings.HasPrefix a.ArmadaRestUrl "http" = false := by
        cases hb : strings.HasPrefix a.ArmadaRestUrl "http" with
        | false => rfl
        | true => exact absurd (hp.mp hb) hpre
      rw [← hE, hfalse]
      rfl
    · intro e he
      simp [he]

theorem ArmadaHealthCheck_requests_witness :
    ((ArmadaHealthCheck sampleGet emptyConfig).ok = false ∧
      (ArmadaHealthCheck sampleGet emptyConfig).err ≠ none ∧
      (ArmadaHealthCheck sampleGet emptyConfig).requests = []) ∧
    (∃ url, (ArmadaHealthCheck sampleGet
        { emptyConfig with ArmadaRestUrl := "armada.example.com" }).requests = [url] ∧
      url = "http://" ++ "armada.example.com" ++ "/health") ∧
    (∃ url, (ArmadaHealthCheck sampleGet
        { emptyConfig with ArmadaRestUrl := "httpx" }).requests = [url] ∧
      url = "httpx" ++ "/health" ∧
      (ArmadaHealthCheck sampleGet { emptyConfig with ArmadaRestUrl := "httpx" }).ok = false ∧
      (ArmadaHealthCheck sampleGet
        { emptyConfig with ArmadaRestUrl := "httpx" }).err ≠ none) :=
  ⟨(ArmadaHealthCheck_requests sampleGet emptyConfig).1 rfl,
   ((ArmadaHealthCheck_requests sampleGet
      { emptyConfig with ArmadaRestUrl := "armada.example.com" }).2 (by decide)).elim
     fun url h => ⟨url, h.1, h.2.2.1 (by
       rw [← strings.HasPrefix_iff]
       decide)⟩,
   ((ArmadaHealthCheck_requests sampleGet
      { emptyConfig with ArmadaRestUrl := "httpx" }).2 (by decide)).elim
     fun url h =>
       have hu : url = "httpx" ++ "/health" := h.2.1 ⟨"x", by decide⟩
       ⟨url, h.1, hu, h.2.2.2 "dial tcp: no such host" (by rw [hu]; rfl)⟩⟩

end client
